import Mathlib

/-!
Verification of the address-to-transaction-history pipeline of the
real-estate-app repository.  The TypeScript source (`src/app/page.tsx`,
`src/app/utils/zipLookup.ts`) is shallowly embedded below: pure helper
functions become Lean functions on `List Char` / `String`, the two external
network services (search provider, completion provider) and the process state
become an explicit `Env` record of oracles, and the POST handler becomes a
pure function from `Env` to an HTTP response value.
-/

namespace RealEstate

/-! ### JavaScript character classes (`\w`, `\d`, `\s`, line terminators) -/

/-- JS `\w`: `[A-Za-z0-9_]`. -/
def isWordChar (c : Char) : Bool :=
  (('a' ≤ c && c ≤ 'z') || ('A' ≤ c && c ≤ 'Z') || c.isDigit || c = '_')

/-- Word-ness of an optional character; out-of-string counts as non-word,
so `\b` holds at the string edge next to a word character. -/
def wordB : Option Char → Bool
  | none => false
  | some c => isWordChar c

/-- JS `\s` (the whitespace characters that occur in practice in this model). -/
def jsSpace (c : Char) : Bool :=
  c = ' ' || c = '\t' || c = '\n' || c = '\r' ||
  c = Char.ofNat 0x0b || c = Char.ofNat 0x0c || c = Char.ofNat 0xa0

/-- JS line terminators (which `.` does not match). -/
def isLineTerm (c : Char) : Bool :=
  c = '\n' || c = '\r' || c = Char.ofNat 0x2028 || c = Char.ofNat 0x2029

/-! ### `extractZipcode` (src/app/page.tsx lines 293-297)

`address.match(/\b\d{5}(?:-\d{4})?\b/)`: scan left to right; at each
position require a word boundary, five digits, then greedily an optional
`-dddd` group, then a word boundary (falling back to the short form when
the long form's trailing boundary fails). -/

/-- Take exactly `n` digit characters from the front of a list. -/
def digitsTake : Nat → List Char → Option (List Char × List Char)
  | 0, l => some ([], l)
  | _ + 1, [] => none
  | n + 1, c :: rest =>
    if c.isDigit then
      (digitsTake n rest).map (fun p => (c :: p.1, p.2))
    else none

/-- Boundary immediately after a digit (JS `\b`): the next character (if any) is non-word. -/
def afterOk (l : List Char) : Bool :=
  match l.head? with
  | none => true
  | some c => !isWordChar c

/-- Match `\d{5}(?:-\d{4})?\b` at the start of the list, greedy in the
optional group, returning the matched characters and the remainder: take
five digits, then try the `-dddd` group followed by `\b`, falling back to
the bare five digits followed by `\b`. -/
def matchCore (l : List Char) : Option (List Char × List Char) :=
  Option.elim (digitsTake 5 l) none (fun p5 =>
    if p5.2.head? = some '-' then
      Option.elim (digitsTake 4 p5.2.tail)
        (if afterOk p5.2 then some (p5.1, p5.2) else none)
        (fun p4 =>
          if afterOk p4.2 then some (p5.1 ++ '-' :: p4.1, p4.2)
          else if afterOk p5.2 then some (p5.1, p5.2) else none)
    else if afterOk p5.2 then some (p5.1, p5.2) else none)

/-- Scan positions left to right; `p` is the character before the current
position (for the leading `\b`). -/
def extractGo (p : Option Char) : List Char → Option (List Char)
  | [] => none
  | c :: rest =>
    if wordB p != isWordChar c then
      Option.elim (matchCore (c :: rest)) (extractGo (some c) rest)
        (fun pr => some pr.1)
    else extractGo (some c) rest

/-- The function `extractZipcode` from src/app/page.tsx: first match of
`/\b\d{5}(?:-\d{4})?\b/`, or `null`. -/
def extractZipcode (address : List Char) : Option (List Char) :=
  extractGo none address

/-- The shape matched by the zip pattern `\d{5}(-\d{4})?`: five digits,
optionally followed by a dash and four digits. -/
def zipShape (m : List Char) : Bool :=
  (m.length = 5 && m.all Char.isDigit) ||
  (m.length = 10 && (m.take 5).all Char.isDigit &&
    (m.drop 5).head? = some '-' && (m.drop 6).all Char.isDigit)

/-! ### String normalization helpers (mirroring the chained `.replace` calls) -/

/-- Lower-casing of the character list (JS `toLowerCase()`, ASCII model). -/
def lowerL (l : List Char) : List Char := l.map Char.toLower

/-- Collapse every whitespace run to a single space (`.replace(/\s+/g, ' ')`). -/
def collapseWs : List Char → List Char
  | [] => []
  | [c] => if jsSpace c then [' '] else [c]
  | c1 :: c2 :: rest =>
    if jsSpace c1 && jsSpace c2 then collapseWs (c2 :: rest)
    else if jsSpace c1 then ' ' :: collapseWs (c2 :: rest)
    else c1 :: collapseWs (c2 :: rest)

/-- Trim both ends (JS `.trim()`). -/
def trimL (l : List Char) : List Char :=
  ((l.dropWhile jsSpace).reverse.dropWhile jsSpace).reverse

/-- Replace each whitespace character by `rep` (global `.replace(/\s/g, rep)`). -/
def replaceSpacesWith (rep : List Char) : List Char → List Char
  | [] => []
  | c :: rest => (if jsSpace c then rep else [c]) ++ replaceSpacesWith rep rest

/-- Delete all whitespace (`.replace(/\s+/g, '')`). -/
def deleteWs (l : List Char) : List Char := l.filter (fun c => !jsSpace c)

/-- Case-insensitive prefix test (ASCII model of the `i` flag). -/
def ciPrefixOf : List Char → List Char → Bool
  | [], _ => true
  | _ :: _, [] => false
  | p :: ps, c :: cs => (Char.toLower p = Char.toLower c) && ciPrefixOf ps cs

/-- Suffix replacement `.replace(/\s+<suf>$/i, rep)`: if the string ends in a whitespace run
followed by `suf` (case-insensitively), replace that whole tail by `rep`. -/
def replaceSuffixCI (suf rep : List Char) (s : List Char) : List Char :=
  let r := s.reverse
  if ciPrefixOf suf.reverse r then
    let r2 := r.drop suf.length
    if (r2.takeWhile jsSpace).isEmpty then s
    else ((r2.dropWhile jsSpace).reverse) ++ rep
  else s

/-- Comma truncation `.replace(/,.*$/, '')`: drop from the first comma whose remaining suffix
contains no line terminator (`.` does not cross line terminators and `$`
is end of string). -/
def commaTail : List Char → List Char
  | [] => []
  | c :: rest =>
    if c = ',' && !(rest.any isLineTerm) then [] else c :: commaTail rest

/-! ### `removeZipcode` (src/app/page.tsx lines 346-348)

`address.replace(/,?\s*\b\d{5}(?:-\d{4})?\b/, '').trim()` -/

/-- Match `\s*\b\d{5}(?:-\d{4})?\b` at the start of `l` with previous
character `p`; returns the remainder after the match.  (Backtracking the
greedy `\s*` is fruitless: stopping inside the whitespace run puts a
non-word character at the cursor, so `\b\d` fails.) -/
def wsZip (p : Option Char) (l : List Char) : Option (List Char) :=
  let sp := l.takeWhile jsSpace
  let r := l.dropWhile jsSpace
  let prevC : Option Char := match sp.getLast? with | some c => some c | none => p
  if wordB prevC != wordB r.head? then (matchCore r).map (fun pr => pr.2)
  else none

/-- Scan for the leftmost match of `,?\s*\b\d{5}(?:-\d{4})?\b`, returning
the kept prefix and the remainder after the match. -/
def removeZipGo (p : Option Char) : List Char → Option (List Char × List Char)
  | [] => none
  | c :: rest =>
    let att : Option (List Char) :=
      if c = ',' then
        match wsZip (some ',') rest with
        | some r => some r
        | none => wsZip p (c :: rest)
      else wsZip p (c :: rest)
    match att with
    | some r => some ([], r)
    | none => (removeZipGo (some c) rest).map (fun pr => (c :: pr.1, pr.2))

/-- The function `removeZipcode` from src/app/page.tsx. -/
def removeZipcode (s : String) : String :=
  match removeZipGo none s.toList with
  | some (pre, rest) => String.mk (trimL (pre ++ rest))
  | none => String.mk (trimL s.toList)

/-! ### Markdown-link scanners

Both `findParcelUrl` (lines 300-343) and the direct-link fallback inside the
handler (lines 511-541) iterate a global regex of the form
`\[([^\]]+)\]\((url pattern)\)` over the page markup.  The anchor text is the
maximal `]`-free run, the url the maximal `)`-free run; a failed attempt
resumes scanning one character later, a successful one resumes after the
match (the `lastIndex` behaviour of a `g` regex). -/

/-- Url pattern `[^)]+parcel\.aspx[^)]+` (case-insensitive): the `)`-free run contains
`parcel.aspx` with at least one character before and after. -/
def patParcel : List Char := "parcel.aspx".toList

def parcelAfter : List Char → Bool
  | [] => false
  | l :: t => ((ciPrefixOf patParcel (l :: t)) && (l :: t).length > patParcel.length) || parcelAfter t

def parcelUrlOk (u : List Char) : Bool :=
  match u with
  | [] => false
  | _ :: t => parcelAfter t

/-- Url pattern `https:\/\/[^)]+parcel\.aspx\?pid=\d+` (case-sensitive): starts with
`https://`, then at least one character, then `parcel.aspx?pid=` followed by
a nonempty digit run extending to the closing parenthesis. -/
def pidPat : List Char := "parcel.aspx?pid=".toList

def pidTailAt (l : List Char) : Bool :=
  pidPat.isPrefixOf l && !(l.drop pidPat.length).isEmpty &&
    (l.drop pidPat.length).all Char.isDigit

def pidScan : List Char → Bool
  | [] => false
  | _ :: t => pidTailAt t || pidScan t

def fallbackUrlOk (u : List Char) : Bool :=
  ("https://".toList).isPrefixOf u && pidScan (u.drop 8)

/-- Consume the maximal run of characters different from `stop`, then the
`stop` character itself; `none` when `stop` does not occur.  This is the
`[^x]*` + literal `x` step of the link regexes. -/
def takeTo (stop : Char) : List Char → Option (List Char × List Char)
  | [] => none
  | c :: rest =>
    if c = stop then some ([], rest)
    else (takeTo stop rest).map (fun p => (c :: p.1, p.2))

theorem takeTo_rem_lt (stop : Char) :
    ∀ l t r, takeTo stop l = some (t, r) → r.length < l.length := by
  intro l
  induction l with
  | nil => intro t r h; exact Option.noConfusion h
  | cons c rest ih =>
    intro t r h
    unfold takeTo at h
    by_cases hc : c = stop
    · rw [if_pos hc] at h
      simp only [Option.some.injEq, Prod.mk.injEq] at h
      obtain ⟨-, hr⟩ := h
      subst hr
      simp
    · rw [if_neg hc] at h
      cases htk : takeTo stop rest with
      | none => rw [htk] at h; exact Option.noConfusion h
      | some p =>
        rw [htk] at h
        simp only [Option.map_some', Option.some.injEq, Prod.mk.injEq] at h
        obtain ⟨-, hr⟩ := h
        subst hr
        have := ih p.1 p.2 (by rw [htk])
        simp only [List.length_cons]
        omega

/-- Try to match `\[([^\]]+)\]\((url)\)` at the current position, where the
url run must satisfy `urlOk`; returns anchor text, url, and remainder. -/
def tryLink (urlOk : List Char → Bool) (l : List Char) :
    Option (List Char × List Char × List Char) :=
  match l with
  | [] => none
  | c :: r1 =>
    if c = '[' then
      Option.elim (takeTo ']' r1) none (fun p1 =>
        if p1.1.isEmpty then none
        else if p1.2.head? = some '(' then
          Option.elim (takeTo ')' p1.2.tail) none (fun p2 =>
            if urlOk p2.1 then some (p1.1, p2.1, p2.2) else none)
        else none)
    else none

theorem tryLink_rem_lt (urlOk : List Char → Bool) (l t u rem : List Char)
    (h : tryLink urlOk l = some (t, u, rem)) : rem.length < l.length := by
  rcases l with _ | ⟨c, r1⟩
  · exact Option.noConfusion h
  · simp only [tryLink] at h
    by_cases hc : c = '['
    · rw [if_pos hc] at h
      rcases htk : takeTo ']' r1 with _ | ⟨t', r2⟩
      · rw [htk, Option.elim_none] at h; exact Option.noConfusion h
      · rw [htk] at h
        simp only [Option.elim_some] at h
        have hr2 : r2.length < r1.length := takeTo_rem_lt ']' r1 t' r2 htk
        by_cases hte : t'.isEmpty
        · rw [if_pos hte] at h; exact Option.noConfusion h
        · rw [if_neg hte] at h
          by_cases hc2 : r2.head? = some '('
          · rw [if_pos hc2] at h
            rcases htk2 : takeTo ')' r2.tail with _ | ⟨u', rem'⟩
            · rw [htk2, Option.elim_none] at h; exact Option.noConfusion h
            · rw [htk2] at h
              simp only [Option.elim_some] at h
              have hrem : rem'.length < r2.tail.length :=
                takeTo_rem_lt ')' r2.tail u' rem' htk2
              have htl : r2.tail.length ≤ r2.length := by
                cases r2 <;> simp
              by_cases hu : urlOk u'
              · rw [if_pos hu] at h
                simp only [Option.some.injEq, Prod.mk.injEq] at h
                obtain ⟨-, -, hr⟩ := h
                subst hr
                simp only [List.length_cons]
                omega
              · rw [if_neg hu] at h; exact Option.noConfusion h
          · rw [if_neg hc2] at h; exact Option.noConfusion h
    · rw [if_neg hc] at h; exact Option.noConfusion h

/-- Fuel-indexed scanner; each step strictly shortens the input (a
successful match consumes at least the whole link, by `tryLink_rem_lt`, and
a failed attempt advances one character), so fuel `l.length` suffices. -/
def scanLinksGo (urlOk : List Char → Bool) : Nat → List Char → List (List Char × List Char)
  | 0, _ => []
  | _ + 1, [] => []
  | fuel + 1, c :: rest =>
    match tryLink urlOk (c :: rest) with
    | some (t, u, rem) => (t, u) :: scanLinksGo urlOk fuel rem
    | none => scanLinksGo urlOk fuel rest

/-- All `(text, url)` matches of the link regex, in scanning order. -/
def scanLinksWith (urlOk : List Char → Bool) (l : List Char) :
    List (List Char × List Char) :=
  scanLinksGo urlOk l.length l

/-! ### `findParcelUrl` (src/app/page.tsx lines 300-343) -/

/-- The normalization at the top of `findParcelUrl` (and the `targetAddress`
of the direct-link fallback): lower-case, collapse whitespace, rewrite a
trailing `rd` to `road`, cut at the first comma, trim. -/
def normalizeA (s : List Char) : List Char :=
  trimL (commaTail (replaceSuffixCI "rd".toList " road".toList (collapseWs (lowerL s))))

/-- The five `addressVariations` built from the normalized search address. -/
def addressVariations (norm : List Char) : List (List Char) :=
  [norm,
   replaceSpacesWith "+".toList norm,
   replaceSpacesWith "%20".toList norm,
   replaceSuffixCI "road".toList " rd".toList norm,
   replaceSuffixCI "rd".toList " road".toList norm]

/-- Whether a scanned link's anchor text (lower-cased) equals one of the
generated address variations. -/
def anchorMatches (norm : List Char) (pr : List Char × List Char) : Bool :=
  (addressVariations norm).contains (lowerL pr.1)

/-- Tail test for `/^(\d+)\s+([^,]+?)(?:\s+(?:road|rd))?$/i`: the remainder after
a candidate lazy street-name prefix must be empty or whitespace followed by
`road`/`rd`. -/
def isRoadRdTail (l : List Char) : Bool :=
  match l with
  | [] => true
  | _ =>
    !(l.takeWhile jsSpace).isEmpty &&
      ((l.dropWhile jsSpace) == "road".toList || (l.dropWhile jsSpace) == "rd".toList)

/-- Lazy `[^,]+?`: the shortest nonempty comma-free prefix whose remainder
satisfies `isRoadRdTail`. -/
def streetGo (acc : List Char) : List Char → Option (List Char)
  | [] => none
  | c :: rs =>
    if c = ',' then none
    else if isRoadRdTail rs then some (acc ++ [c])
    else streetGo (acc ++ [c]) rs

/-- The `addressParts` match: leading digit run, whitespace run, then the
lazily-matched street name with optional `road`/`rd` suffix stripped. -/
def addressParts (norm : List Char) : Option (List Char × List Char) :=
  let hn := norm.takeWhile Char.isDigit
  let r1 := norm.dropWhile Char.isDigit
  if hn.isEmpty then none
  else if (r1.takeWhile jsSpace).isEmpty then none
  else (streetGo [] (r1.dropWhile jsSpace)).map (fun st => (hn, st))

/-- Case-insensitive literal strip. -/
def stripCI (pat l : List Char) : Option (List Char) :=
  if ciPrefixOf pat l then some (l.drop pat.length) else none

/-- Match the looser dynamic regex
`\[<houseNumber>\s+<streetName>[^\]]*\]\(([^)]+parcel\.aspx[^)]+)\)` at the
current position, returning the captured url. -/
def simpleAt (hn st : List Char) (l : List Char) : Option (List Char) :=
  match l with
  | [] => none
  | c :: r1 =>
    if c = '[' then
      Option.elim (stripCI hn r1) none (fun r2 =>
        if (r2.takeWhile jsSpace).isEmpty then none
        else
          Option.elim (stripCI st (r2.dropWhile jsSpace)) none (fun r4 =>
            Option.elim (takeTo ']' r4) none (fun p1 =>
              if p1.2.head? = some '(' then
                Option.elim (takeTo ')' p1.2.tail) none (fun p2 =>
                  if parcelUrlOk p2.1 then some p2.1 else none)
              else none)))
    else none

/-- First position (left to right) where the looser regex matches. -/
def simpleScan (hn st : List Char) : List Char → Option (List Char)
  | [] => none
  | c :: rest =>
    match simpleAt hn st (c :: rest) with
    | some u => some u
    | none => simpleScan hn st rest

/-- The function `findParcelUrl` from src/app/page.tsx: first `parcel.aspx` markdown link
whose anchor text (lower-cased) equals an address variation; otherwise the
looser house-number + street-name scan. -/
def findParcelUrl (searchAddress rawContent : String) : Option String :=
  Option.elim
    ((scanLinksWith parcelUrlOk rawContent.toList).find?
      (anchorMatches (normalizeA searchAddress.toList)))
    (match addressParts (normalizeA searchAddress.toList) with
     | some p => (simpleScan p.1 p.2 rawContent.toList).map String.mk
     | none => none)
    (fun pr => some (String.mk pr.2))

/-! ### Direct-link fallback (src/app/page.tsx lines 511-541) -/

/-- Anchor-text normalization used by the fallback's `find`:
lower-case, collapse whitespace, trim. -/
def linkAddrNorm (l : List Char) : List Char := trimL (collapseWs (lowerL l))

/-- The direct link detection applied when the first completion returned `[]`
yet raw content is available: scan
`\[([^\]]+)\]\((https:\/\/[^)]+parcel\.aspx\?pid=\d+)\)` matches, pick the
first whose normalized anchor text equals the normalized search address. -/
def directLinkDetect (searchAddress raw : String) : Option (String × String) :=
  let target := normalizeA searchAddress.toList
  ((scanLinksWith fallbackUrlOk raw.toList).find?
      (fun pr => linkAddrNorm pr.1 == target)).map
    (fun pr => (String.mk pr.1, String.mk pr.2))

/-! ### Zip directory (src/app/utils/zipLookup.ts) -/

/-- A stored directory record (the `ZipInfo` interface). -/
structure ZipInfo where
  zip : String
  city : String
  state_id : String
  state_name : String
  county_name : String
  county_fips : String
deriving DecidableEq, Repr

/-- One spreadsheet row as produced by `sheet_to_json`: each cell either a
number, a string, or absent.  Only the `zip` cell is ever numeric in the
code's handling; the other cells are modelled as optional strings. -/
inductive ZipCell where
  | num (n : Nat)
  | str (s : String)
  | absent
deriving DecidableEq, Repr

structure Row where
  zip : ZipCell
  city : Option String
  state_id : Option String
  state_name : Option String
  county_name : Option String
  county_fips : Option String
deriving Repr

/-- Zero-padding `padStart(5, '0')`: left-pad with zeros to a minimum length of 5
(longer strings are left unchanged — `padStart` never truncates). -/
def padStart5 (s : String) : String :=
  if s.length ≥ 5 then s
  else String.mk (List.replicate (5 - s.length) '0' ++ s.toList)

/-- The key computation: numbers are converted via `toString().padStart(5,'0')`,
strings are used as-is, a missing cell yields `''`. -/
def zipKeyOfCell : ZipCell → String
  | .num n => padStart5 (Nat.repr n)
  | .str s => s
  | .absent => ""

/-- JS truthiness of an optional string cell. -/
def truthyS : Option String → Bool
  | some s => s ≠ ""
  | none => false

/-- Coalesce an optional string (JS `x || ''`). -/
def orEmpty : Option String → String
  | some s => s
  | none => ""

/-- JS `Map.set`: replace in place if the key exists, else append. -/
def mapSet (m : List (String × ZipInfo)) (k : String) (v : ZipInfo) :
    List (String × ZipInfo) :=
  if m.any (fun p => p.1 == k) then
    m.map (fun p => if p.1 == k then (k, v) else p)
  else m ++ [(k, v)]

/-- JS `Map.get`. -/
def mapGet (m : List (String × ZipInfo)) (k : String) : Option ZipInfo :=
  (m.find? (fun p => p.1 == k)).map (fun p => p.2)

/-- Processing of one row inside `initializeZipData`'s `forEach`. -/
def processRow (m : List (String × ZipInfo)) (row : Row) : List (String × ZipInfo) :=
  if zipKeyOfCell row.zip ≠ "" && truthyS row.county_name && truthyS row.state_id then
    mapSet m (zipKeyOfCell row.zip)
      { zip := zipKeyOfCell row.zip
        city := orEmpty row.city
        state_id := orEmpty row.state_id
        state_name := orEmpty row.state_name
        county_name := orEmpty row.county_name
        county_fips := orEmpty row.county_fips }
  else m

/-- The map built by a successful `initializeZipData` run over the parsed
spreadsheet rows. -/
def buildZipMap (rows : List Row) : List (String × ZipInfo) :=
  rows.foldl processRow []

/-- Module-load initialization: `initializeZipData().catch(console.error)`.
Its body is synchronous; on a successful read it installs the built map, on a
read/parse failure the module-level `zipData` stays `null` (the rejection is
swallowed by `.catch`). -/
def initializeZipData (readResult : Option (List Row)) :
    Option (List (String × ZipInfo)) :=
  match readResult with
  | some rows => some (buildZipMap rows)
  | none => none

/-- The function `lookupZip`: throws (`Except.error`) when the directory was never
initialized, otherwise an exact-key lookup. -/
def lookupZip (st : Option (List (String × ZipInfo))) (zipcode : String) :
    Except String (Option ZipInfo) :=
  match st with
  | none => .error "ZIP database not initialized"
  | some m => .ok (mapGet m zipcode)

/-! ### JSON values, external oracles and the request environment -/

/-- Parsed JSON values (numbers as integers: the payloads the handler
inspects never depend on fractional values). -/
inductive Json where
  | null
  | bool (b : Bool)
  | num (n : Int)
  | str (s : String)
  | arr (items : List Json)
  | obj (fields : List (String × Json))

/-- JS truthiness of a JSON value. -/
def truthyJson : Json → Bool
  | .null => false
  | .bool b => b
  | .num n => n ≠ 0
  | .str s => s ≠ ""
  | .arr _ => true
  | .obj _ => true

/-- Member access `item.key`: a field of an object, `undefined` (`none`)
otherwise. -/
def jsonField (j : Json) (k : String) : Option Json :=
  match j with
  | .obj fields => (fields.find? (fun p => p.1 == k)).map (fun p => p.2)
  | _ => none

/-- One Tavily search result line (the fields the handler reads). -/
structure TavilyResult where
  title : String
  url : String
  content : String
  score : Int
  rawContent : Option String

/-- Outcome of one completion call: transport failure (a thrown error with
its message), a response with missing content, or content together with its
`JSON.parse` result (`none` when parsing throws). -/
inductive CompOut where
  | fail (msg : String)
  | noContent
  | content (parse : Option Json)

/-- Everything one POST request execution observes: the request's address,
the process-wide directory state, and the outcomes of the four possible
outbound calls. -/
structure Env where
  address : String
  zipState : Option (List (String × ZipInfo))
  searchCall : Except String (List TavilyResult)
  firstCompletion : CompOut
  extractCall : Except String (Option String)
  secondCompletion : CompOut

/-- The success payload of the handler's `NextResponse.json` calls. -/
structure Payload where
  zipcode : String
  city : String
  county : String
  state : String
  state_id : String
  county_fips : String
  searchUrl : String
  transactions : List Json

inductive RespBody where
  | success (p : Payload)
  | failure (error : String)

structure HttpResponse where
  status : Nat
  body : RespBody

/-! ### Search-candidate selection (src/app/page.tsx lines 398-420)

`results.sort((a, b) => b.score - a.score)` is an in-place stable sort
(ES2019), so the subsequent `filter` also runs over the sorted array; a
stable insertion sort produces the identical list. -/

/-- Stable descending insertion by score: a new element goes after all
already-placed elements of greater-or-equal score. -/
def insertDesc (x : TavilyResult) : List TavilyResult → List TavilyResult
  | [] => [x]
  | y :: ys => if y.score < x.score then x :: y :: ys else y :: insertDesc x ys

def sortDesc (l : List TavilyResult) : List TavilyResult :=
  l.foldl (fun acc x => insertDesc x acc) []

/-- Case-insensitive containment test of the search address in a result's
content (`normalizedContent.includes(normalizedAddress)`). -/
def containsList : List Char → List Char → Bool
  | hay, needle =>
    needle.isPrefixOf hay ||
      (match hay with
       | [] => false
       | _ :: t => containsList t needle)

def contentMatches (searchAddress : String) (r : TavilyResult) : Bool :=
  containsList (lowerL r.content.toList) (lowerL searchAddress.toList)

/-- Lines 398-420: best match by score, preferring results whose content
contains the search address; `none` on an empty result list (the handler
then returns the 404 `No property records found` response).  The `filter`
runs over the sorted array because `Array.prototype.sort` mutated it in
place. -/
def selectCandidate (searchAddress : String) (results : List TavilyResult) :
    Option TavilyResult :=
  match sortDesc results, (sortDesc results).filter (contentMatches searchAddress) with
  | [], _ => none
  | bestMatch :: _, [] => some bestMatch
  | _ :: _, m :: _ => some m

/-! ### The POST handler (src/app/page.tsx lines 353-793)

Thrown errors are modelled by `Except.error`.  The `try { JSON.parse …
}` block spans lines 505-772, so *every* error thrown inside it — including
`No matching link found …`, Tavily extract failures and second-completion
failures — is caught by `catch (parseError)` and re-thrown as
`Failed to parse AI response as JSON`, which the enclosing catch turns into
a 500 response with that message. -/

/-- Line 382: the constructed search url. -/
def mkSearchUrl (info : ZipInfo) : String :=
  "https://gis.vgsi.com/" ++ String.mk (deleteWs (lowerL info.city.toList)) ++
    String.mk (lowerL info.state_id.toList) ++ "/search.aspx"

/-- Lines 571-581: the normalization both sides of the `find` comparison get:
lower-case, `road`→`rd`, `rd`→`rd` (re-spacing), collapse whitespace, trim. -/
def normalizeB (s : List Char) : List Char :=
  trimL (collapseWs (replaceSuffixCI "rd".toList " rd".toList
    (replaceSuffixCI "road".toList " rd".toList (lowerL s))))

/-- The predicate of `parsedData.find(item => …)`: `false` for a missing or
falsy `address`, a TypeError (`Except.error`) for `null` items or truthy
non-string addresses, else the normalized equality test. -/
def addrPred (searchAddress : String) (item : Json) : Except String Bool :=
  match item with
  | .null => .error "TypeError"
  | _ =>
    match jsonField item "address" with
    | none => .ok false
    | some a =>
      if truthyJson a then
        match a with
        | .str s => .ok (normalizeB searchAddress.toList == normalizeB s.toList)
        | _ => .error "TypeError"
      else .ok false

/-- JS `Array.prototype.find` with a throwing predicate. -/
def findMatchingItem (searchAddress : String) : List Json → Except String (Option Json)
  | [] => .ok none
  | item :: rest =>
    match addrPred searchAddress item with
    | .error e => .error e
    | .ok true => .ok (some item)
    | .ok false => findMatchingItem searchAddress rest

/-- A 200 `NextResponse.json` built from the location record. -/
def successResp (zipcode : String) (info : ZipInfo) (searchUrl : String)
    (txs : List Json) : HttpResponse :=
  ⟨200, .success
    { zipcode := zipcode
      city := info.city
      county := info.county_name
      state := info.state_name
      state_id := info.state_id
      county_fips := info.county_fips
      searchUrl := searchUrl
      transactions := txs }⟩

/-- The shared tail of the Type 2/3 and dead Type 3 branches: second
completion call, `JSON.parse`, and the array-length dispatch (a nonempty
array is returned as-is, anything else yields `transactions: []`). -/
def secondStage (c : CompOut) (zipcode : String) (info : ZipInfo)
    (searchUrl : String) : Except String HttpResponse :=
  match c with
  | .fail m => .error m
  | .noContent => .error "No content received from second AI model call"
  | .content none => .error "SyntaxError"
  | .content (some j) =>
    match j with
    | .arr (x :: xs) => .ok (successResp zipcode info searchUrl (x :: xs))
    | _ => .ok (successResp zipcode info searchUrl [])

/-- Lines 565-674: the branch taken for `Type 2` (and, via the shared
condition, `Type 3`): find the item whose address matches, follow its link
through the extract call, then run the second completion. -/
def type23Body (env : Env) (zipcode : String) (info : ZipInfo) (searchUrl : String)
    (searchAddress : String) (items : List Json) : Except String HttpResponse :=
  match findMatchingItem searchAddress items with
  | .error e => .error e
  | .ok none => .error "No matching link found for the search address"
  | .ok (some item) =>
    Option.elim (jsonField item "link")
      (.error "No matching link found for the search address") (fun l =>
        if truthyJson l then
          match env.extractCall with
          | .error m => .error m
          | .ok none => .error "No content extracted from the link"
          | .ok (some _) => secondStage env.secondCompletion zipcode info searchUrl
        else .error "No matching link found for the search address")

/-- Lines 675-758: the dedicated (unreachable) `Type 3` branch: it reads
`parsedData[0].address` and feeds it to the second completion. -/
def dead3Body (env : Env) (zipcode : String) (info : ZipInfo) (searchUrl : String)
    (head : Json) : Except String HttpResponse :=
  Option.elim (jsonField head "address")
    (.error "No address found in Type 3 response") (fun a =>
      if truthyJson a then secondStage env.secondCompletion zipcode info searchUrl
      else .error "No address found in Type 3 response")

inductive BranchTag where
  | t1 | t23 | t3dead | other
deriving DecidableEq

/-- The `if/else if` chain on `responseType` (lines 549, 564, 675). -/
def dispatchType (t : Option Json) : BranchTag :=
  match t with
  | some (.str s) =>
    if s = "Type 1" then .t1
    else if s = "Type 2" || s = "Type 3" then .t23
    else if s = "Type 3" then .t3dead
    else .other
  | _ => .other

/-- Lines 543-772: dispatch on the parsed (fallback-adjusted) data. -/
def processParsed (env : Env) (zipcode : String) (info : ZipInfo) (searchUrl : String)
    (searchAddress : String) (parsedData : Json) : Except String HttpResponse :=
  match parsedData with
  | .arr (head :: tail) =>
    match dispatchType (jsonField head "type") with
    | .t1 => .ok (successResp zipcode info searchUrl tail)
    | .t23 => type23Body env zipcode info searchUrl searchAddress (head :: tail)
    | .t3dead => dead3Body env zipcode info searchUrl head
    | .other => .ok (successResp zipcode info searchUrl [])
  | _ => .ok (successResp zipcode info searchUrl [])

/-- Lines 511-541: when the first completion parsed to `[]` and the chosen
result has truthy raw content, attempt the direct link detection and, on a
hit, replace the parsed data by a synthesized `Type 2` payload. -/
def applyFallback (searchAddress : String) (ru : TavilyResult) (j : Json) : Json :=
  match j with
  | .arr [] =>
    match ru.rawContent with
    | some raw =>
      if raw ≠ "" then
        match directLinkDetect searchAddress raw with
        | some al =>
          .arr [.obj [("type", .str "Type 2")],
                .obj [("address", .str al.1), ("link", .str al.2)]]
        | none => .arr []
      else .arr []
    | none => .arr []
  | other => other

/-- Lines 505-778: a throw anywhere inside the `JSON.parse` try-block is
converted by `catch (parseError)` into the fixed parse-failure 500. -/
def parseDispatch (r : Except String HttpResponse) : HttpResponse :=
  match r with
  | .ok resp => resp
  | .error _ => ⟨500, .failure "Failed to parse AI response as JSON"⟩

/-- Lines 424-785: the whole AI section, wrapped in its two catches. -/
def aiSection (env : Env) (zipcode : String) (info : ZipInfo) (searchUrl : String)
    (searchAddress : String) (ru : TavilyResult) : HttpResponse :=
  match env.firstCompletion with
  | .fail m => ⟨500, .failure m⟩
  | .noContent => ⟨500, .failure "No content received from AI model"⟩
  | .content none => ⟨500, .failure "Failed to parse AI response as JSON"⟩
  | .content (some j) =>
    parseDispatch (processParsed env zipcode info searchUrl searchAddress
      (applyFallback searchAddress ru j))

/-- The dispatch on the selected candidate (`if (!bestMatch)` / the chosen
`resultToUse`). -/
def afterSelect (env : Env) (zipcode : String) (info : ZipInfo)
    (sel : Option TavilyResult) : HttpResponse :=
  match sel with
  | none => ⟨404, .failure "No property records found for this address"⟩
  | some ru =>
    aiSection env zipcode info (mkSearchUrl info) (removeZipcode env.address) ru

/-- Steps 4-5 (after a successful directory lookup): search, candidate
selection, and the AI section. -/
def afterSearch (env : Env) (zipcode : String) (info : ZipInfo) : HttpResponse :=
  match env.searchCall with
  | .error m => ⟨500, .failure m⟩
  | .ok results =>
    afterSelect env zipcode info (selectCandidate (removeZipcode env.address) results)

/-- Step 2 onwards (after zip extraction): directory lookup and the rest. -/
def afterLookup (env : Env) (zipcode : String) : HttpResponse :=
  match lookupZip env.zipState zipcode with
  | .error m => ⟨500, .failure m⟩
  | .ok none => ⟨404, .failure "County information not found for this zipcode"⟩
  | .ok (some info) => afterSearch env zipcode info

/-- The POST handler. -/
def POST (env : Env) : HttpResponse :=
  match extractZipcode env.address.toList with
  | none => ⟨400, .failure "Could not extract zipcode from address"⟩
  | some zchars => afterLookup env (String.mk zchars)

theorem POST_extract_none (env : Env)
    (h : extractZipcode env.address.toList = none) :
    POST env = ⟨400, .failure "Could not extract zipcode from address"⟩ := by
  unfold POST; rw [h]

theorem POST_extract_some (env : Env) (z : List Char)
    (h : extractZipcode env.address.toList = some z) :
    POST env = afterLookup env (String.mk z) := by
  unfold POST; rw [h]

theorem afterLookup_error (env : Env) (zc m : String)
    (h : lookupZip env.zipState zc = .error m) :
    afterLookup env zc = ⟨500, .failure m⟩ := by
  unfold afterLookup; rw [h]

theorem afterLookup_notFound (env : Env) (zc : String)
    (h : lookupZip env.zipState zc = .ok none) :
    afterLookup env zc = ⟨404, .failure "County information not found for this zipcode"⟩ := by
  unfold afterLookup; rw [h]

theorem afterLookup_found (env : Env) (zc : String) (info : ZipInfo)
    (h : lookupZip env.zipState zc = .ok (some info)) :
    afterLookup env zc = afterSearch env zc info := by
  unfold afterLookup; rw [h]

theorem afterSearch_error (env : Env) (zc : String) (info : ZipInfo) (m : String)
    (h : env.searchCall = .error m) :
    afterSearch env zc info = ⟨500, .failure m⟩ := by
  unfold afterSearch; rw [h]

theorem afterSearch_ok (env : Env) (zc : String) (info : ZipInfo)
    (results : List TavilyResult) (hs : env.searchCall = .ok results) :
    afterSearch env zc info =
      afterSelect env zc info (selectCandidate (removeZipcode env.address) results) := by
  unfold afterSearch; rw [hs]

theorem afterSearch_noCandidate (env : Env) (zc : String) (info : ZipInfo)
    (results : List TavilyResult) (hs : env.searchCall = .ok results)
    (hsel : selectCandidate (removeZipcode env.address) results = none) :
    afterSearch env zc info =
      ⟨404, .failure "No property records found for this address"⟩ := by
  rw [afterSearch_ok env zc info results hs, hsel]
  exact rfl

theorem afterSearch_candidate (env : Env) (zc : String) (info : ZipInfo)
    (results : List TavilyResult) (ru : TavilyResult)
    (hs : env.searchCall = .ok results)
    (hsel : selectCandidate (removeZipcode env.address) results = some ru) :
    afterSearch env zc info =
      aiSection env zc info (mkSearchUrl info) (removeZipcode env.address) ru := by
  rw [afterSearch_ok env zc info results hs, hsel]
  exact rfl

/-- The zip string this request extracts, if any. -/
def zipOf (env : Env) : Option String :=
  (extractZipcode env.address.toList).map String.mk

/-- The directory record this request resolves, if any. -/
def infoOf (env : Env) : Option ZipInfo :=
  (zipOf env).bind (fun zc =>
    match lookupZip env.zipState zc with
    | .ok (some i) => some i
    | _ => none)

def resultsOf (env : Env) : Option (List TavilyResult) :=
  match env.searchCall with
  | .ok rs => some rs
  | .error _ => none

/-- The candidate the request settles on, when the pipeline reaches the
selection step. -/
def postCandidate (env : Env) : Option TavilyResult :=
  (infoOf env).bind (fun _ =>
    (resultsOf env).bind (fun rs => selectCandidate (removeZipcode env.address) rs))

/-- The fallback-adjusted parsed first-completion data, when reached. -/
def postParsed (env : Env) : Option Json :=
  (postCandidate env).bind (fun ru =>
    match env.firstCompletion with
    | .content (some j) => some (applyFallback (removeZipcode env.address) ru j)
    | _ => none)

/-- The items of the second completion's parsed array, if any. -/
def secondParseItems (env : Env) : Option (List Json) :=
  match env.secondCompletion with
  | .content (some (.arr l)) => some l
  | _ => none

/-! ## Theorems -/

/-! ### Zip-directory invariants (claims C2, C3) -/

/-- A concrete spreadsheet row whose numeric zip cell has six digits. -/
def wideZipRow : Row where
  zip := .num 123456
  city := some "Springfield"
  state_id := some "CT"
  state_name := some "Connecticut"
  county_name := some "Fairfield"
  county_fips := some "09001"

/-- A fully concrete request environment used by the C2 counterexample:
the backing spreadsheet failed to load at module initialization. -/
def uninitEnv : Env where
  address := "8 Lynnbrook Road, 06824"
  zipState := initializeZipData none
  searchCall := .ok []
  firstCompletion := .noContent
  extractCall := .ok none
  secondCompletion := .noContent

theorem mem_mapSet (m : List (String × ZipInfo)) (k : String) (v : ZipInfo)
    (q : String × ZipInfo) (hq : q ∈ mapSet m k v) : q = (k, v) ∨ q ∈ m := by
  unfold mapSet at hq
  by_cases hex : m.any (fun p => p.1 == k)
  · rw [if_pos hex] at hq
    rcases List.mem_map.mp hq with ⟨p, hp, hpq⟩
    by_cases hpk : p.1 == k
    · rw [if_pos hpk] at hpq; exact Or.inl hpq.symm
    · rw [if_neg hpk] at hpq; exact Or.inr (hpq ▸ hp)
  · rw [if_neg hex] at hq
    rcases List.mem_append.mp hq with h | h
    · exact Or.inr h
    · exact Or.inl (List.mem_singleton.mp h)

/-- The per-entry invariant maintained by `processRow`. -/
def goodEntry (q : String × ZipInfo) : Prop :=
  q.2.county_name ≠ "" ∧ q.2.state_id ≠ "" ∧ q.2.zip = q.1 ∧ q.1 ≠ ""

theorem processRow_inv (m : List (String × ZipInfo)) (row : Row)
    (hm : ∀ q ∈ m, goodEntry q) : ∀ q ∈ processRow m row, goodEntry q := by
  intro q hq
  unfold processRow at hq
  by_cases hgb : (zipKeyOfCell row.zip ≠ "" && truthyS row.county_name &&
      truthyS row.state_id) = true
  · rw [if_pos hgb] at hq
    simp only [Bool.and_eq_true, decide_eq_true_eq] at hgb
    obtain ⟨⟨hz, hc⟩, hs⟩ := hgb
    rcases mem_mapSet _ _ _ _ hq with h | h
    · subst h
      refine ⟨?_, ?_, rfl, hz⟩
      · rcases hcn : row.county_name with _ | s
        · rw [hcn] at hc; simp [truthyS] at hc
        · rw [hcn] at hc
          have hs' : s ≠ "" := by simpa [truthyS] using hc
          simpa [orEmpty, hcn] using hs'
      · rcases hsi : row.state_id with _ | s
        · rw [hsi] at hs; simp [truthyS] at hs
        · rw [hsi] at hs
          have hs' : s ≠ "" := by simpa [truthyS] using hs
          simpa [orEmpty, hsi] using hs'
    · exact hm q h
  · rw [if_neg hgb] at hq
    exact hm q hq

theorem buildZipMap_inv (rows : List Row) :
    ∀ q ∈ buildZipMap rows, goodEntry q := by
  unfold buildZipMap
  suffices h : ∀ (m : List (String × ZipInfo)), (∀ q ∈ m, goodEntry q) →
      ∀ q ∈ List.foldl processRow m rows, goodEntry q by
    exact h [] (by intro q hq; exact absurd hq (List.not_mem_nil q))
  induction rows with
  | nil => intro m hm q hq; exact hm q hq
  | cons r rs ih =>
    intro m hm q hq
    exact ih (processRow m r) (processRow_inv m r hm) q hq

/-- C3 (amended part): every record retained by a successful initialization
carries a nonempty county name and state code, and is stored under its own
(nonempty) zip key. -/
theorem buildZipMap_retained_records (rows : List Row) (k : String) (rec : ZipInfo)
    (h : mapGet (buildZipMap rows) k = some rec) :
    rec.county_name ≠ "" ∧ rec.state_id ≠ "" ∧ rec.zip = k ∧ k ≠ "" := by
  unfold mapGet at h
  rcases hfind : (buildZipMap rows).find? (fun p => p.1 == k) with _ | p
  · rw [hfind] at h; exact Option.noConfusion h
  · rw [hfind] at h
    simp only [Option.map_some', Option.some.injEq] at h
    have hmem : p ∈ buildZipMap rows := List.mem_of_find?_eq_some hfind
    have hkey : (fun q : String × ZipInfo => q.1 == k) p = true :=
      List.find?_some (p := fun q : String × ZipInfo => q.1 == k) hfind
    have hk : p.1 = k := by simpa using hkey
    have hg := buildZipMap_inv rows p hmem
    rcases hg with ⟨h1, h2, h3, h4⟩
    subst h
    exact ⟨h1, h2, by rw [h3, hk], by rw [← hk]; exact h4⟩

/-- The record `wideZipRow` is stored as. -/
def wideZipInfo : ZipInfo :=
  ⟨"123456", "Springfield", "CT", "Connecticut", "Fairfield", "09001"⟩

/-- C3 witness: the invariant evaluated on the concrete six-digit row. -/
theorem buildZipMap_retained_records_witness :
    wideZipInfo.county_name ≠ "" ∧ wideZipInfo.state_id ≠ "" ∧
      wideZipInfo.zip = "123456" ∧ ("123456" : String) ≠ "" :=
  buildZipMap_retained_records [wideZipRow] "123456" wideZipInfo (by rfl)

/-- C3 counterexample: a retained key that is not a five-digit string —
`padStart(5, '0')` never truncates, so the numeric cell `123456` is stored
under the six-character key `"123456"`. -/
theorem zipKey_not_five_digits :
    (mapGet (buildZipMap [wideZipRow]) "123456").isSome = true ∧
      ("123456" : String).length ≠ 5 := by
  constructor
  · rfl
  · decide

/-- C2 (amended part): after a *successful* initialization the directory is
populated, so `lookupZip` can never take its not-initialized error branch;
the original claim fails only when initialization itself failed. -/
theorem lookupZip_initialized_never_errors (rows : List Row) (env : Env)
    (hst : env.zipState = initializeZipData (some rows)) :
    ∀ z e, lookupZip env.zipState z ≠ .error e := by
  intro z e h
  rw [hst] at h
  simp only [initializeZipData, lookupZip] at h
  exact Except.noConfusion h

theorem lookupZip_initialized_never_errors_witness :
    lookupZip (initializeZipData (some [wideZipRow])) "123456" ≠
      .error "ZIP database not initialized" :=
  lookupZip_initialized_never_errors [wideZipRow]
    { uninitEnv with zipState := initializeZipData (some [wideZipRow]) } rfl
    "123456" "ZIP database not initialized"

/-- C2 counterexample: when the backing spreadsheet read fails, the module
loads with `zipData = null`, the POST handler still calls `lookupZip`, and
the request surfaces the not-initialized error as a 500 — the branch the
claim calls unreachable. -/
theorem lookupZip_notInitialized_reachable :
    POST uninitEnv = ⟨500, .failure "ZIP database not initialized"⟩ := by
  rfl

/-! ### Branch dispatch on the first completion's tag (claim C4) -/

theorem jsonField_skip_first (k k' : String) (v : Json) (fields : List (String × Json))
    (hne : (k' == k) = false) :
    jsonField (.obj ((k', v) :: fields)) k = jsonField (.obj fields) k := by
  simp only [jsonField, List.find?]
  rw [hne]

theorem addrPred_type_irrelevant (sa : String) (v w : Json) (fields : List (String × Json)) :
    addrPred sa (.obj (("type", v) :: fields)) = addrPred sa (.obj (("type", w) :: fields)) := by
  have hv := jsonField_skip_first "address" "type" v fields (by decide)
  have hw := jsonField_skip_first "address" "type" w fields (by decide)
  simp only [addrPred]
  rw [hv, hw]

theorem linkField_type_irrelevant (v w : Json) (fields : List (String × Json)) :
    jsonField (.obj (("type", v) :: fields)) "link" =
      jsonField (.obj (("type", w) :: fields)) "link" := by
  rw [jsonField_skip_first "link" "type" v fields (by decide),
    jsonField_skip_first "link" "type" w fields (by decide)]

theorem type23Body_head_type_irrelevant (env : Env) (z : String) (info : ZipInfo)
    (su sa : String) (v w : Json) (fields : List (String × Json)) (rest : List Json) :
    type23Body env z info su sa (.obj (("type", v) :: fields) :: rest) =
      type23Body env z info su sa (.obj (("type", w) :: fields) :: rest) := by
  simp only [type23Body, findMatchingItem]
  rw [addrPred_type_irrelevant sa v w fields]
  rcases addrPred sa (.obj (("type", w) :: fields)) with e | b
  · rfl
  · rcases b with _ | _
    · rfl
    · simp only []
      rw [linkField_type_irrelevant v w fields]

/-- C4: the tag dispatch never reaches the dedicated later `Type 3` branch
(it is shadowed by the shared `Type 2 || Type 3` condition), and a parsed
payload tagged `Type 3` is processed exactly like the same payload tagged
`Type 2`. -/
theorem type3_unifies_with_type2 :
    (∀ t, dispatchType t ≠ .t3dead) ∧
      (∀ (env : Env) (z : String) (info : ZipInfo) (su sa : String)
          (fields : List (String × Json)) (rest : List Json),
        processParsed env z info su sa (.arr (.obj (("type", .str "Type 3") :: fields) :: rest)) =
          processParsed env z info su sa (.arr (.obj (("type", .str "Type 2") :: fields) :: rest))) := by
  constructor
  · intro t h
    rcases t with _ | j
    · simp [dispatchType] at h
    · cases j with
      | str s =>
        simp only [dispatchType] at h
        by_cases h1 : s = "Type 1"
        · rw [if_pos h1] at h; exact BranchTag.noConfusion h
        · rw [if_neg h1] at h
          by_cases h2 : (s = "Type 2" || s = "Type 3") = true
          · rw [if_pos h2] at h; exact BranchTag.noConfusion h
          · rw [if_neg h2] at h
            by_cases h3 : s = "Type 3"
            · exact h2 (by simp [h3])
            · rw [if_neg h3] at h; exact BranchTag.noConfusion h
      | null => simp [dispatchType] at h
      | bool b => simp [dispatchType] at h
      | num n => simp [dispatchType] at h
      | arr l => simp [dispatchType] at h
      | obj fs => simp [dispatchType] at h
  · intro env z info su sa fields rest
    have h3 : jsonField (.obj (("type", Json.str "Type 3") :: fields)) "type" =
        some (.str "Type 3") := by
      simp [jsonField, List.find?]
    have h2 : jsonField (.obj (("type", Json.str "Type 2") :: fields)) "type" =
        some (.str "Type 2") := by
      simp [jsonField, List.find?]
    simp only [processParsed, h3, h2]
    have d3 : dispatchType (some (.str "Type 3")) = .t23 := by decide
    have d2 : dispatchType (some (.str "Type 2")) = .t23 := by decide
    rw [d3, d2]
    exact type23Body_head_type_irrelevant env z info su sa _ _ fields rest

theorem type3_unifies_with_type2_witness :
    dispatchType (some (.str "Type 3")) ≠ .t3dead :=
  type3_unifies_with_type2.1 (some (.str "Type 3"))

/-! ### Search-candidate selection policy (claim C5) -/

/-- Descending-score order between results. -/
def geScore (a b : TavilyResult) : Prop := b.score ≤ a.score

theorem mem_insertDesc (x : TavilyResult) (l : List TavilyResult) (y : TavilyResult) :
    y ∈ insertDesc x l ↔ y = x ∨ y ∈ l := by
  induction l with
  | nil => simp [insertDesc]
  | cons z zs ih =>
    simp only [insertDesc]
    by_cases h : z.score < x.score
    · rw [if_pos h]
      simp [List.mem_cons]
    · rw [if_neg h]
      simp only [List.mem_cons, ih]
      tauto

theorem pairwise_insertDesc (x : TavilyResult) (l : List TavilyResult)
    (h : l.Pairwise geScore) : (insertDesc x l).Pairwise geScore := by
  induction l with
  | nil => simp [insertDesc, List.pairwise_cons]
  | cons z zs ih =>
    rw [List.pairwise_cons] at h
    simp only [insertDesc]
    by_cases hz : z.score < x.score
    · rw [if_pos hz]
      rw [List.pairwise_cons]
      constructor
      · intro b hb
        rcases List.mem_cons.mp hb with hb | hb
        · subst hb; exact le_of_lt hz
        · exact le_trans (h.1 b hb) (le_of_lt hz)
      · rw [List.pairwise_cons]
        exact h
    · rw [if_neg hz]
      rw [List.pairwise_cons]
      constructor
      · intro b hb
        rcases (mem_insertDesc x zs b).mp hb with hb | hb
        · subst hb; exact le_of_not_lt hz
        · exact h.1 b hb
      · exact ih h.2

theorem mem_sortDescAux (l : List TavilyResult) :
    ∀ (acc : List TavilyResult) (y : TavilyResult),
      y ∈ l.foldl (fun acc x => insertDesc x acc) acc ↔ y ∈ acc ∨ y ∈ l := by
  induction l with
  | nil => simp
  | cons z zs ih =>
    intro acc y
    simp only [List.foldl_cons]
    rw [ih (insertDesc z acc) y, mem_insertDesc]
    simp only [List.mem_cons]
    tauto

theorem mem_sortDesc (l : List TavilyResult) (y : TavilyResult) :
    y ∈ sortDesc l ↔ y ∈ l := by
  unfold sortDesc
  rw [mem_sortDescAux]
  simp

theorem pairwise_sortDesc (l : List TavilyResult) :
    (sortDesc l).Pairwise geScore := by
  unfold sortDesc
  suffices h : ∀ (acc : List TavilyResult), acc.Pairwise geScore →
      (l.foldl (fun acc x => insertDesc x acc) acc).Pairwise geScore by
    exact h [] (List.Pairwise.nil)
  induction l with
  | nil => intro acc hacc; exact hacc
  | cons z zs ih =>
    intro acc hacc
    exact ih (insertDesc z acc) (pairwise_insertDesc z acc hacc)

theorem selectCandidate_of_nil (sa : String) (results : List TavilyResult)
    (h : sortDesc results = []) : selectCandidate sa results = none := by
  unfold selectCandidate
  rw [h]

theorem selectCandidate_of_no_match (sa : String) (results : List TavilyResult)
    (best : TavilyResult) (rest : List TavilyResult)
    (h : sortDesc results = best :: rest)
    (hf : (best :: rest).filter (contentMatches sa) = []) :
    selectCandidate sa results = some best := by
  unfold selectCandidate
  rw [h, hf]

theorem selectCandidate_of_match (sa : String) (results : List TavilyResult)
    (best m : TavilyResult) (rest mrest : List TavilyResult)
    (h : sortDesc results = best :: rest)
    (hf : (best :: rest).filter (contentMatches sa) = m :: mrest) :
    selectCandidate sa results = some m := by
  unfold selectCandidate
  rw [h, hf]

/-- C5: for a nonempty result sequence the handler settles on the
highest-scoring candidate whose content contains the (lower-cased) search
address, falling back to the highest-scoring candidate overall when no
content contains it; an empty sequence yields no candidate and the request
ends as the 404 `No property records found` error. -/
theorem selectCandidate_policy :
    (∀ (sa : String), selectCandidate sa [] = none) ∧
    (∀ (sa : String) (results : List TavilyResult) (r : TavilyResult),
        selectCandidate sa results = some r →
          (contentMatches sa r = true ∧
              ∀ r' ∈ results, contentMatches sa r' = true → r'.score ≤ r.score) ∨
          ((∀ r' ∈ results, contentMatches sa r' = false) ∧
              ∀ r' ∈ results, r'.score ≤ r.score)) ∧
    (∀ (sa : String) (results : List TavilyResult),
        results ≠ [] → (selectCandidate sa results).isSome = true) ∧
    (∀ (env : Env) (z : List Char) (info : ZipInfo),
        extractZipcode env.address.toList = some z →
        lookupZip env.zipState (String.mk z) = .ok (some info) →
        env.searchCall = .ok [] →
        POST env = ⟨404, .failure "No property records found for this address"⟩) := by
  refine ⟨?_, ?_, ?_, ?_⟩
  · intro sa; rfl
  · intro sa results r hsel
    rcases hsort : sortDesc results with _ | ⟨best, rest⟩
    · rw [selectCandidate_of_nil sa results hsort] at hsel
      exact Option.noConfusion hsel
    · have hpw : (best :: rest).Pairwise geScore := hsort ▸ pairwise_sortDesc results
      rcases hfil : (best :: rest).filter (contentMatches sa) with _ | ⟨m, mrest⟩
      · rw [selectCandidate_of_no_match sa results best rest hsort hfil] at hsel
        simp only [Option.some.injEq] at hsel
        subst hsel
        right
        have hnomatch : ∀ r' ∈ results, contentMatches sa r' = false := by
          intro r' hr'
          by_contra hmt
          have hmt' : contentMatches sa r' = true := by
            cases hc : contentMatches sa r' with
            | false => exact absurd hc hmt
            | true => rfl
          have hmem : r' ∈ (best :: rest).filter (contentMatches sa) :=
            List.mem_filter.mpr ⟨by rw [← hsort]; exact (mem_sortDesc results r').mpr hr', hmt'⟩
          rw [hfil] at hmem
          exact absurd hmem (List.not_mem_nil r')
        refine ⟨hnomatch, ?_⟩
        intro r' hr'
        have hmem : r' ∈ best :: rest := by
          rw [← hsort]; exact (mem_sortDesc results r').mpr hr'
        rcases List.mem_cons.mp hmem with h | h
        · subst h; exact le_refl _
        · exact (List.pairwise_cons.mp hpw).1 r' h
      · rw [selectCandidate_of_match sa results best m rest mrest hsort hfil] at hsel
        simp only [Option.some.injEq] at hsel
        subst hsel
        left
        have hrmem : m ∈ (best :: rest).filter (contentMatches sa) := by
          rw [hfil]; exact List.mem_cons_self m mrest
        have hrprop := List.mem_filter.mp hrmem
        refine ⟨hrprop.2, ?_⟩
        intro r' hr' hmt
        have hr'fil : r' ∈ (best :: rest).filter (contentMatches sa) :=
          List.mem_filter.mpr ⟨by rw [← hsort]; exact (mem_sortDesc results r').mpr hr', hmt⟩
        have hpwfil : ((best :: rest).filter (contentMatches sa)).Pairwise geScore :=
          hpw.sublist (List.filter_sublist _)
        rw [hfil] at hr'fil hpwfil
        rcases List.mem_cons.mp hr'fil with h | h
        · subst h; exact le_refl _
        · exact (List.pairwise_cons.mp hpwfil).1 r' h
  · intro sa results hne
    rcases hsort : sortDesc results with _ | ⟨best, rest⟩
    · rcases results with _ | ⟨r0, rs⟩
      · exact absurd rfl hne
      · have : r0 ∈ sortDesc (r0 :: rs) :=
          (mem_sortDesc _ r0).mpr (List.mem_cons_self r0 rs)
        rw [hsort] at this
        exact absurd this (List.not_mem_nil r0)
    · rcases hfil : (best :: rest).filter (contentMatches sa) with _ | ⟨m, mrest⟩
      · rw [selectCandidate_of_no_match sa results best rest hsort hfil]; rfl
      · rw [selectCandidate_of_match sa results best m rest mrest hsort hfil]; rfl
  · intro env z info hz hl hs
    rw [POST_extract_some env z hz, afterLookup_found env _ info hl,
      afterSearch_noCandidate env _ info [] hs rfl]

theorem selectCandidate_policy_witness :
    (selectCandidate "a" [⟨"t", "u", "xa", 5, none⟩, ⟨"t", "u", "zz", 9, none⟩]).isSome
      = true :=
  selectCandidate_policy.2.2.1 "a"
    [⟨"t", "u", "xa", 5, none⟩, ⟨"t", "u", "zz", 9, none⟩] (by simp)

/-! ### Empty first-pass parse with no raw content (claim C8) -/

theorem aiSection_parsed (env : Env) (zc : String) (info : ZipInfo) (su sa : String)
    (ru : TavilyResult) (j : Json) (h : env.firstCompletion = .content (some j)) :
    aiSection env zc info su sa ru =
      parseDispatch (processParsed env zc info su sa (applyFallback sa ru j)) := by
  unfold aiSection; rw [h]

theorem applyFallback_empty_noraw (sa : String) (ru : TavilyResult)
    (hraw : ru.rawContent = none ∨ ru.rawContent = some "") :
    applyFallback sa ru (.arr []) = .arr [] := by
  show (match ru.rawContent with
    | some raw =>
      if raw ≠ "" then
        match directLinkDetect sa raw with
        | some al =>
          Json.arr [.obj [("type", .str "Type 2")],
                .obj [("address", .str al.1), ("link", .str al.2)]]
        | none => Json.arr []
      else Json.arr []
    | none => Json.arr []) = Json.arr []
  rcases hraw with h | h
  · rw [h]
  · rw [h]
    exact rfl

/-- C8: when the first completion's output parses to the empty JSON array
and the selected candidate carries no (truthy) raw content, the request ends
as a 200 success whose transactions list is exactly `[]`. -/
theorem emptyParse_noRaw_yields_empty_success (env : Env) (z : List Char)
    (info : ZipInfo) (results : List TavilyResult) (ru : TavilyResult)
    (hz : extractZipcode env.address.toList = some z)
    (hl : lookupZip env.zipState (String.mk z) = .ok (some info))
    (hs : env.searchCall = .ok results)
    (hsel : selectCandidate (removeZipcode env.address) results = some ru)
    (hraw : ru.rawContent = none ∨ ru.rawContent = some "")
    (hfc : env.firstCompletion = .content (some (.arr []))) :
    POST env = ⟨200, .success ⟨String.mk z, info.city, info.county_name,
      info.state_name, info.state_id, info.county_fips, mkSearchUrl info, []⟩⟩ := by
  rw [POST_extract_some env z hz, afterLookup_found env _ info hl,
    afterSearch_candidate env _ info results ru hs hsel,
    aiSection_parsed env _ info _ _ ru (.arr []) hfc,
    applyFallback_empty_noraw (removeZipcode env.address) ru hraw]
  exact rfl

/-- The location record for the C8 witness environment. -/
def c8Info : ZipInfo :=
  ⟨"06824", "Fairfield", "CT", "Connecticut", "Fairfield", "09001"⟩

def c8Result : TavilyResult :=
  ⟨"t", "https://gis.vgsi.com/x", "8 lynnbrook road", 5, none⟩

def c8Env : Env where
  address := "8 Lynnbrook Road, 06824"
  zipState := some [("06824", c8Info)]
  searchCall := .ok [c8Result]
  firstCompletion := .content (some (.arr []))
  extractCall := .ok none
  secondCompletion := .noContent

theorem emptyParse_noRaw_yields_empty_success_witness :
    POST c8Env = ⟨200, .success ⟨String.mk "06824".toList, "Fairfield", "Fairfield",
      "Connecticut", "CT", "09001", mkSearchUrl c8Info, []⟩⟩ :=
  emptyParse_noRaw_yields_empty_success c8Env "06824".toList c8Info [c8Result] c8Result
    (by rfl) (by rfl) (by rfl) (by rfl) (Or.inl rfl) (by rfl)

/-! ### Success-response characterization (claims C6, C7, C10) -/

theorem aiSection_fail (env : Env) (zc : String) (info : ZipInfo) (su sa : String)
    (ru : TavilyResult) (m : String) (h : env.firstCompletion = .fail m) :
    aiSection env zc info su sa ru = ⟨500, .failure m⟩ := by
  unfold aiSection; rw [h]

theorem aiSection_noContent (env : Env) (zc : String) (info : ZipInfo) (su sa : String)
    (ru : TavilyResult) (h : env.firstCompletion = .noContent) :
    aiSection env zc info su sa ru =
      ⟨500, .failure "No content received from AI model"⟩ := by
  unfold aiSection; rw [h]

theorem aiSection_parseNone (env : Env) (zc : String) (info : ZipInfo) (su sa : String)
    (ru : TavilyResult) (h : env.firstCompletion = .content none) :
    aiSection env zc info su sa ru =
      ⟨500, .failure "Failed to parse AI response as JSON"⟩ := by
  unfold aiSection; rw [h]

theorem secondStage_ok_shape (c : CompOut) (zc : String) (info : ZipInfo) (su : String)
    (r : HttpResponse) (h : secondStage c zc info su = .ok r) :
    ∃ txs, r = successResp zc info su txs ∧
      (txs = [] ∨ (c = .content (some (.arr txs)) ∧ txs ≠ [])) := by
  cases c with
  | fail m => simp [secondStage] at h
  | noContent => simp [secondStage] at h
  | content parse =>
    cases parse with
    | none => simp [secondStage] at h
    | some j =>
      cases j with
      | arr items =>
        cases items with
        | nil =>
          simp only [secondStage, Except.ok.injEq] at h
          exact ⟨[], h.symm, Or.inl rfl⟩
        | cons x xs =>
          simp only [secondStage, Except.ok.injEq] at h
          exact ⟨x :: xs, h.symm, Or.inr ⟨rfl, List.cons_ne_nil x xs⟩⟩
      | null =>
        simp only [secondStage, Except.ok.injEq] at h
        exact ⟨[], h.symm, Or.inl rfl⟩
      | bool b =>
        simp only [secondStage, Except.ok.injEq] at h
        exact ⟨[], h.symm, Or.inl rfl⟩
      | num n =>
        simp only [secondStage, Except.ok.injEq] at h
        exact ⟨[], h.symm, Or.inl rfl⟩
      | str s =>
        simp only [secondStage, Except.ok.injEq] at h
        exact ⟨[], h.symm, Or.inl rfl⟩
      | obj fs =>
        simp only [secondStage, Except.ok.injEq] at h
        exact ⟨[], h.symm, Or.inl rfl⟩

theorem type23Body_ok_imp (env : Env) (zc : String) (info : ZipInfo) (su sa : String)
    (items : List Json) (r : HttpResponse)
    (h : type23Body env zc info su sa items = .ok r) :
    secondStage env.secondCompletion zc info su = .ok r := by
  unfold type23Body at h
  cases hf : findMatchingItem sa items with
  | error e => rw [hf] at h; simp at h
  | ok oitem =>
    rw [hf] at h
    cases oitem with
    | none => simp at h
    | some item =>
      simp only [] at h
      cases hlink : jsonField item "link" with
      | none => rw [hlink, Option.elim_none] at h; simp at h
      | some l =>
        rw [hlink] at h
        simp only [Option.elim_some] at h
        by_cases htr : truthyJson l = true
        · rw [if_pos htr] at h
          cases hex : env.extractCall with
          | error m => rw [hex] at h; simp at h
          | ok oraw =>
            rw [hex] at h
            cases oraw with
            | none => simp at h
            | some raw => simpa using h
        · rw [if_neg htr] at h; simp at h

theorem dead3Body_ok_imp (env : Env) (zc : String) (info : ZipInfo) (su : String)
    (hd : Json) (r : HttpResponse) (h : dead3Body env zc info su hd = .ok r) :
    secondStage env.secondCompletion zc info su = .ok r := by
  unfold dead3Body at h
  cases ha : jsonField hd "address" with
  | none => rw [ha, Option.elim_none] at h; simp at h
  | some a =>
    rw [ha] at h
    simp only [Option.elim_some] at h
    by_cases htr : truthyJson a = true
    · rw [if_pos htr] at h; simpa using h
    · rw [if_neg htr] at h; simp at h

theorem processParsed_ok_shape (env : Env) (zc : String) (info : ZipInfo) (su sa : String)
    (pd : Json) (r : HttpResponse) (h : processParsed env zc info su sa pd = .ok r) :
    ∃ txs, r = successResp zc info su txs ∧
      (txs = [] ∨
        (∃ hd t, pd = .arr (hd :: t) ∧
            dispatchType (jsonField hd "type") = .t1 ∧ txs = t) ∨
        (env.secondCompletion = .content (some (.arr txs)) ∧ txs ≠ [])) := by
  cases pd with
  | arr items =>
    cases items with
    | nil =>
      simp only [processParsed, Except.ok.injEq] at h
      exact ⟨[], h.symm, Or.inl rfl⟩
    | cons hd t =>
      simp only [processParsed] at h
      cases hdt : dispatchType (jsonField hd "type") with
      | t1 =>
        rw [hdt] at h
        simp only [Except.ok.injEq] at h
        exact ⟨t, h.symm, Or.inr (Or.inl ⟨hd, t, rfl, hdt, rfl⟩)⟩
      | t23 =>
        rw [hdt] at h
        simp only [] at h
        obtain ⟨txs, hr, hp⟩ :=
          secondStage_ok_shape env.secondCompletion zc info su r
            (type23Body_ok_imp env zc info su sa (hd :: t) r h)
        exact ⟨txs, hr, hp.elim Or.inl (fun q => Or.inr (Or.inr q))⟩
      | t3dead =>
        rw [hdt] at h
        simp only [] at h
        obtain ⟨txs, hr, hp⟩ :=
          secondStage_ok_shape env.secondCompletion zc info su r
            (dead3Body_ok_imp env zc info su hd r h)
        exact ⟨txs, hr, hp.elim Or.inl (fun q => Or.inr (Or.inr q))⟩
      | other =>
        rw [hdt] at h
        simp only [Except.ok.injEq] at h
        exact ⟨[], h.symm, Or.inl rfl⟩
  | null =>
    simp only [processParsed, Except.ok.injEq] at h
    exact ⟨[], h.symm, Or.inl rfl⟩
  | bool b =>
    simp only [processParsed, Except.ok.injEq] at h
    exact ⟨[], h.symm, Or.inl rfl⟩
  | num n =>
    simp only [processParsed, Except.ok.injEq] at h
    exact ⟨[], h.symm, Or.inl rfl⟩
  | str s =>
    simp only [processParsed, Except.ok.injEq] at h
    exact ⟨[], h.symm, Or.inl rfl⟩
  | obj fs =>
    simp only [processParsed, Except.ok.injEq] at h
    exact ⟨[], h.symm, Or.inl rfl⟩

theorem infoOf_eq (env : Env) (z : List Char) (info : ZipInfo)
    (hz : extractZipcode env.address.toList = some z)
    (hl : lookupZip env.zipState (String.mk z) = .ok (some info)) :
    infoOf env = some info := by
  unfold infoOf zipOf
  rw [hz]
  simp only [Option.map_some', Option.some_bind]
  rw [hl]

theorem resultsOf_eq (env : Env) (results : List TavilyResult)
    (hs : env.searchCall = .ok results) : resultsOf env = some results := by
  unfold resultsOf
  rw [hs]

theorem postCandidate_eq (env : Env) (z : List Char) (info : ZipInfo)
    (results : List TavilyResult)
    (hz : extractZipcode env.address.toList = some z)
    (hl : lookupZip env.zipState (String.mk z) = .ok (some info))
    (hs : env.searchCall = .ok results) :
    postCandidate env = selectCandidate (removeZipcode env.address) results := by
  unfold postCandidate
  rw [infoOf_eq env z info hz hl, resultsOf_eq env results hs]
  simp only [Option.some_bind]

theorem postParsed_eq (env : Env) (ru : TavilyResult) (j : Json)
    (hc : postCandidate env = some ru)
    (hfc : env.firstCompletion = .content (some j)) :
    postParsed env = some (applyFallback (removeZipcode env.address) ru j) := by
  unfold postParsed
  rw [hc]
  simp only [Option.some_bind]
  rw [hfc]

/-- Full characterization of every success response the handler can emit. -/
theorem post_success_shape (env : Env) (s : Nat) (p : Payload)
    (h : POST env = ⟨s, .success p⟩) :
    s = 200 ∧ ∃ z info, extractZipcode env.address.toList = some z ∧
      lookupZip env.zipState (String.mk z) = .ok (some info) ∧
      p.zipcode = String.mk z ∧ p.city = info.city ∧ p.county = info.county_name ∧
      p.state = info.state_name ∧ p.state_id = info.state_id ∧
      p.county_fips = info.county_fips ∧ p.searchUrl = mkSearchUrl info ∧
      (p.transactions = [] ∨
        (∃ hd t, postParsed env = some (.arr (hd :: t)) ∧
            dispatchType (jsonField hd "type") = .t1 ∧ p.transactions = t) ∨
        (env.secondCompletion = .content (some (.arr p.transactions)) ∧
            p.transactions ≠ [])) := by
  cases hz : extractZipcode env.address.toList with
  | none => rw [POST_extract_none env hz] at h; simp at h
  | some z =>
    rw [POST_extract_some env z hz] at h
    cases hl : lookupZip env.zipState (String.mk z) with
    | error m => rw [afterLookup_error env _ m hl] at h; simp at h
    | ok oinfo =>
      cases oinfo with
      | none => rw [afterLookup_notFound env _ hl] at h; simp at h
      | some info =>
        rw [afterLookup_found env _ info hl] at h
        cases hs : env.searchCall with
        | error m => rw [afterSearch_error env _ info m hs] at h; simp at h
        | ok results =>
          cases hsel : selectCandidate (removeZipcode env.address) results with
          | none =>
            rw [afterSearch_noCandidate env _ info results hs hsel] at h
            simp at h
          | some ru =>
            rw [afterSearch_candidate env _ info results ru hs hsel] at h
            cases hfc : env.firstCompletion with
            | fail m => rw [aiSection_fail env _ info _ _ ru m hfc] at h; simp at h
            | noContent => rw [aiSection_noContent env _ info _ _ ru hfc] at h; simp at h
            | content parse =>
              cases parse with
              | none => rw [aiSection_parseNone env _ info _ _ ru hfc] at h; simp at h
              | some j =>
                rw [aiSection_parsed env _ info _ _ ru j hfc] at h
                cases hpp : processParsed env (String.mk z) info (mkSearchUrl info)
                    (removeZipcode env.address)
                    (applyFallback (removeZipcode env.address) ru j) with
                | error e => rw [hpp] at h; simp [parseDispatch] at h
                | ok r =>
                  rw [hpp] at h
                  simp only [parseDispatch] at h
                  obtain ⟨txs, hr, hprov⟩ :=
                    processParsed_ok_shape env (String.mk z) info (mkSearchUrl info)
                      (removeZipcode env.address)
                      (applyFallback (removeZipcode env.address) ru j) r hpp
                  subst hr
                  simp only [successResp, HttpResponse.mk.injEq, RespBody.success.injEq] at h
                  obtain ⟨hss, hp⟩ := h
                  subst hp
                  refine ⟨hss.symm, z, info, rfl, hl, rfl, rfl, rfl, rfl, rfl, rfl, rfl, ?_⟩
                  rcases hprov with h0 | hmid | hsecond
                  · exact Or.inl h0
                  · obtain ⟨hd, t, hpd, hdt, htxs⟩ := hmid
                    refine Or.inr (Or.inl ⟨hd, t, ?_, hdt, htxs⟩)
                    have hpc : postCandidate env = some ru := by
                      rw [postCandidate_eq env z info results hz hl hs]
                      exact hsel
                    rw [postParsed_eq env ru j hpc hfc, hpd]
                  · exact Or.inr (Or.inr hsecond)

/-- Every response the handler can emit is either a 200 success or an
error-only body with status 400, 404 or 500. -/
theorem post_status_shape (env : Env) :
    (∃ p, POST env = ⟨200, .success p⟩) ∨
      (∃ st m, POST env = ⟨st, .failure m⟩ ∧ (st = 400 ∨ st = 404 ∨ st = 500)) := by
  cases hz : extractZipcode env.address.toList with
  | none =>
    right
    exact ⟨400, _, POST_extract_none env hz, Or.inl rfl⟩
  | some z =>
    rw [POST_extract_some env z hz]
    cases hl : lookupZip env.zipState (String.mk z) with
    | error m =>
      right
      exact ⟨500, m, afterLookup_error env _ m hl, Or.inr (Or.inr rfl)⟩
    | ok oinfo =>
      cases oinfo with
      | none =>
        right
        exact ⟨404, _, afterLookup_notFound env _ hl, Or.inr (Or.inl rfl)⟩
      | some info =>
        rw [afterLookup_found env _ info hl]
        cases hs : env.searchCall with
        | error m =>
          right
          exact ⟨500, m, afterSearch_error env _ info m hs, Or.inr (Or.inr rfl)⟩
        | ok results =>
          cases hsel : selectCandidate (removeZipcode env.address) results with
          | none =>
            right
            exact ⟨404, _, afterSearch_noCandidate env _ info results hs hsel,
              Or.inr (Or.inl rfl)⟩
          | some ru =>
            rw [afterSearch_candidate env _ info results ru hs hsel]
            cases hfc : env.firstCompletion with
            | fail m =>
              right
              exact ⟨500, m, aiSection_fail env _ info _ _ ru m hfc, Or.inr (Or.inr rfl)⟩
            | noContent =>
              right
              exact ⟨500, _, aiSection_noContent env _ info _ _ ru hfc, Or.inr (Or.inr rfl)⟩
            | content parse =>
              cases parse with
              | none =>
                right
                exact ⟨500, _, aiSection_parseNone env _ info _ _ ru hfc, Or.inr (Or.inr rfl)⟩
              | some j =>
                rw [aiSection_parsed env _ info _ _ ru j hfc]
                cases hpp : processParsed env (String.mk z) info (mkSearchUrl info)
                    (removeZipcode env.address)
                    (applyFallback (removeZipcode env.address) ru j) with
                | error e =>
                  right
                  exact ⟨500, "Failed to parse AI response as JSON", rfl, Or.inr (Or.inr rfl)⟩
                | ok r =>
                  left
                  obtain ⟨txs, hr, -⟩ :=
                    processParsed_ok_shape env (String.mk z) info (mkSearchUrl info)
                      (removeZipcode env.address)
                      (applyFallback (removeZipcode env.address) ru j) r hpp
                  subst hr
                  exact ⟨_, rfl⟩

theorem processParsed_t23_eq (env : Env) (zc : String) (info : ZipInfo) (su sa : String)
    (hd : Json) (tl : List Json)
    (hdt : dispatchType (jsonField hd "type") = BranchTag.t23) :
    processParsed env zc info su sa (.arr (hd :: tl)) =
      type23Body env zc info su sa (hd :: tl) := by
  simp only [processParsed]
  rw [hdt]

theorem type23Body_afterFind (env : Env) (zc : String) (info : ZipInfo) (su sa : String)
    (items : List Json) (item : Json)
    (hfind : findMatchingItem sa items = .ok (some item)) :
    type23Body env zc info su sa items =
      Option.elim (jsonField item "link")
        (.error "No matching link found for the search address") (fun l =>
          if truthyJson l then
            match env.extractCall with
            | .error m => .error m
            | .ok none => .error "No content extracted from the link"
            | .ok (some _) => secondStage env.secondCompletion zc info su
          else .error "No matching link found for the search address") := by
  unfold type23Body
  rw [hfind]

/-- C6: the response status is exactly 400 when no zip can be extracted,
404 for an unknown zip (with the county-not-found message) or an empty
candidate set, and 500 for every downstream failure: a search-call throw
keeps its message; a first-completion transport failure, missing content
or JSON-parse failure yields a 500; any error thrown inside the
`JSON.parse` try-block — which is where a followed-link extract failure,
a missing-content extract result, and every second-completion failure
land — yields the fixed parse-failure 500; once a candidate has been
selected the status can only be 200 or 500 (never 400/404); and every POST
response is either a 200 success or a `{error}`-only body with status 400,
404 or 500. -/
theorem post_status_codes :
    (∀ env : Env, extractZipcode env.address.toList = none →
        POST env = ⟨400, .failure "Could not extract zipcode from address"⟩) ∧
    (∀ (env : Env) (z : List Char), extractZipcode env.address.toList = some z →
        lookupZip env.zipState (String.mk z) = .ok none →
        POST env = ⟨404, .failure "County information not found for this zipcode"⟩) ∧
    (∀ (env : Env) (z : List Char) (info : ZipInfo) (results : List TavilyResult),
        extractZipcode env.address.toList = some z →
        lookupZip env.zipState (String.mk z) = .ok (some info) →
        env.searchCall = .ok results →
        selectCandidate (removeZipcode env.address) results = none →
        POST env = ⟨404, .failure "No property records found for this address"⟩) ∧
    (∀ (env : Env) (z : List Char) (info : ZipInfo) (m : String),
        extractZipcode env.address.toList = some z →
        lookupZip env.zipState (String.mk z) = .ok (some info) →
        env.searchCall = .error m →
        POST env = ⟨500, .failure m⟩) ∧
    (∀ (env : Env) (z : List Char) (info : ZipInfo) (results : List TavilyResult)
        (ru : TavilyResult) (m : String),
        extractZipcode env.address.toList = some z →
        lookupZip env.zipState (String.mk z) = .ok (some info) →
        env.searchCall = .ok results →
        selectCandidate (removeZipcode env.address) results = some ru →
        env.firstCompletion = .fail m →
        POST env = ⟨500, .failure m⟩) ∧
    (∀ (env : Env) (z : List Char) (info : ZipInfo) (results : List TavilyResult)
        (ru : TavilyResult),
        extractZipcode env.address.toList = some z →
        lookupZip env.zipState (String.mk z) = .ok (some info) →
        env.searchCall = .ok results →
        selectCandidate (removeZipcode env.address) results = some ru →
        env.firstCompletion = .noContent →
        POST env = ⟨500, .failure "No content received from AI model"⟩) ∧
    (∀ (env : Env) (z : List Char) (info : ZipInfo) (results : List TavilyResult)
        (ru : TavilyResult),
        extractZipcode env.address.toList = some z →
        lookupZip env.zipState (String.mk z) = .ok (some info) →
        env.searchCall = .ok results →
        selectCandidate (removeZipcode env.address) results = some ru →
        env.firstCompletion = .content none →
        POST env = ⟨500, .failure "Failed to parse AI response as JSON"⟩) ∧
    (∀ (env : Env) (z : List Char) (info : ZipInfo) (results : List TavilyResult)
        (ru : TavilyResult) (j : Json) (e : String),
        extractZipcode env.address.toList = some z →
        lookupZip env.zipState (String.mk z) = .ok (some info) →
        env.searchCall = .ok results →
        selectCandidate (removeZipcode env.address) results = some ru →
        env.firstCompletion = .content (some j) →
        processParsed env (String.mk z) info (mkSearchUrl info)
          (removeZipcode env.address)
          (applyFallback (removeZipcode env.address) ru j) = .error e →
        POST env = ⟨500, .failure "Failed to parse AI response as JSON"⟩) ∧
    (∀ (env : Env) (zc : String) (info : ZipInfo) (su sa : String) (hd : Json)
        (tl : List Json) (item l : Json),
        dispatchType (jsonField hd "type") = .t23 →
        findMatchingItem sa (hd :: tl) = .ok (some item) →
        jsonField item "link" = some l → truthyJson l = true →
        (∀ m, env.extractCall = .error m →
            processParsed env zc info su sa (.arr (hd :: tl)) = .error m) ∧
        (env.extractCall = .ok none →
            processParsed env zc info su sa (.arr (hd :: tl)) =
              .error "No content extracted from the link") ∧
        (∀ raw m, env.extractCall = .ok (some raw) → env.secondCompletion = .fail m →
            processParsed env zc info su sa (.arr (hd :: tl)) = .error m) ∧
        (∀ raw, env.extractCall = .ok (some raw) → env.secondCompletion = .noContent →
            processParsed env zc info su sa (.arr (hd :: tl)) =
              .error "No content received from second AI model call") ∧
        (∀ raw, env.extractCall = .ok (some raw) →
            env.secondCompletion = .content none →
            processParsed env zc info su sa (.arr (hd :: tl)) = .error "SyntaxError")) ∧
    (∀ (env : Env) (z : List Char) (info : ZipInfo) (results : List TavilyResult)
        (ru : TavilyResult),
        extractZipcode env.address.toList = some z →
        lookupZip env.zipState (String.mk z) = .ok (some info) →
        env.searchCall = .ok results →
        selectCandidate (removeZipcode env.address) results = some ru →
        (POST env).status = 200 ∨ (POST env).status = 500) ∧
    (∀ env : Env, (∃ p, POST env = ⟨200, .success p⟩) ∨
        (∃ st m, POST env = ⟨st, .failure m⟩ ∧ (st = 400 ∨ st = 404 ∨ st = 500))) := by
  refine ⟨?_, ?_, ?_, ?_, ?_, ?_, ?_, ?_, ?_, ?_, post_status_shape⟩
  · intro env hz
    exact POST_extract_none env hz
  · intro env z hz hl
    rw [POST_extract_some env z hz]
    exact afterLookup_notFound env _ hl
  · intro env z info results hz hl hs hsel
    rw [POST_extract_some env z hz, afterLookup_found env _ info hl]
    exact afterSearch_noCandidate env _ info results hs hsel
  · intro env z info m hz hl hs
    rw [POST_extract_some env z hz, afterLookup_found env _ info hl]
    exact afterSearch_error env _ info m hs
  · intro env z info results ru m hz hl hs hsel hfc
    rw [POST_extract_some env z hz, afterLookup_found env _ info hl,
      afterSearch_candidate env _ info results ru hs hsel]
    exact aiSection_fail env _ info _ _ ru m hfc
  · intro env z info results ru hz hl hs hsel hfc
    rw [POST_extract_some env z hz, afterLookup_found env _ info hl,
      afterSearch_candidate env _ info results ru hs hsel]
    exact aiSection_noContent env _ info _ _ ru hfc
  · intro env z info results ru hz hl hs hsel hfc
    rw [POST_extract_some env z hz, afterLookup_found env _ info hl,
      afterSearch_candidate env _ info results ru hs hsel]
    exact aiSection_parseNone env _ info _ _ ru hfc
  · intro env z info results ru j e hz hl hs hsel hfc hpp
    rw [POST_extract_some env z hz, afterLookup_found env _ info hl,
      afterSearch_candidate env _ info results ru hs hsel,
      aiSection_parsed env _ info _ _ ru j hfc, hpp]
    rfl
  · intro env zc info su sa hd tl item l hdt hfind hlink htr
    have hbase := type23Body_afterFind env zc info su sa (hd :: tl) item hfind
    rw [hlink] at hbase
    simp only [Option.elim_some] at hbase
    rw [if_pos htr] at hbase
    refine ⟨?_, ?_, ?_, ?_, ?_⟩
    · intro m hex
      rw [processParsed_t23_eq env zc info su sa hd tl hdt, hbase, hex]
    · intro hex
      rw [processParsed_t23_eq env zc info su sa hd tl hdt, hbase, hex]
    · intro raw m hex hsc
      rw [processParsed_t23_eq env zc info su sa hd tl hdt, hbase, hex]
      show secondStage env.secondCompletion zc info su = .error m
      rw [hsc]
      exact rfl
    · intro raw hex hsc
      rw [processParsed_t23_eq env zc info su sa hd tl hdt, hbase, hex]
      show secondStage env.secondCompletion zc info su =
        .error "No content received from second AI model call"
      rw [hsc]
      exact rfl
    · intro raw hex hsc
      rw [processParsed_t23_eq env zc info su sa hd tl hdt, hbase, hex]
      show secondStage env.secondCompletion zc info su = .error "SyntaxError"
      rw [hsc]
      exact rfl
  · intro env z info results ru hz hl hs hsel
    rw [POST_extract_some env z hz, afterLookup_found env _ info hl,
      afterSearch_candidate env _ info results ru hs hsel]
    cases hfc : env.firstCompletion with
    | fail m =>
      rw [aiSection_fail env _ info _ _ ru m hfc]
      exact Or.inr rfl
    | noContent =>
      rw [aiSection_noContent env _ info _ _ ru hfc]
      exact Or.inr rfl
    | content parse =>
      cases parse with
      | none =>
        rw [aiSection_parseNone env _ info _ _ ru hfc]
        exact Or.inr rfl
      | some j =>
        rw [aiSection_parsed env _ info _ _ ru j hfc]
        cases hpp : processParsed env (String.mk z) info (mkSearchUrl info)
            (removeZipcode env.address)
            (applyFallback (removeZipcode env.address) ru j) with
        | error e => exact Or.inr rfl
        | ok r =>
          obtain ⟨txs, hr, -⟩ :=
            processParsed_ok_shape env (String.mk z) info (mkSearchUrl info)
              (removeZipcode env.address)
              (applyFallback (removeZipcode env.address) ru j) r hpp
          subst hr
          exact Or.inl rfl

def noZipEnv : Env := { c8Env with address := "no zip in this address" }

theorem post_status_codes_witness :
    POST noZipEnv = ⟨400, .failure "Could not extract zipcode from address"⟩ :=
  post_status_codes.1 noZipEnv (by rfl)

/-- C7: a success body exists only after a successful directory lookup; it
always carries all location fields derived from the looked-up record (even
when the transaction list is empty), and a nonempty transaction list always
originates in one of the two completion outputs (never fabricated). -/
theorem success_only_after_lookup (env : Env) (s : Nat) (p : Payload)
    (h : POST env = ⟨s, .success p⟩) :
    s = 200 ∧ ∃ z info, extractZipcode env.address.toList = some z ∧
      lookupZip env.zipState (String.mk z) = .ok (some info) ∧
      p.zipcode = String.mk z ∧ p.city = info.city ∧ p.county = info.county_name ∧
      p.state = info.state_name ∧ p.state_id = info.state_id ∧
      p.county_fips = info.county_fips ∧ p.searchUrl = mkSearchUrl info ∧
      (p.transactions = [] ∨
        (∃ hd t, postParsed env = some (.arr (hd :: t)) ∧
            dispatchType (jsonField hd "type") = .t1 ∧ p.transactions = t) ∨
        (env.secondCompletion = .content (some (.arr p.transactions)) ∧
            p.transactions ≠ [])) :=
  post_success_shape env s p h

theorem success_only_after_lookup_witness :
    (200 : Nat) = 200 ∧ ∃ z info,
      extractZipcode c8Env.address.toList = some z ∧
      lookupZip c8Env.zipState (String.mk z) = .ok (some info) ∧
      (Payload.mk (String.mk "06824".toList) "Fairfield" "Fairfield" "Connecticut"
          "CT" "09001" (mkSearchUrl c8Info) []).zipcode = String.mk z ∧
      (Payload.mk (String.mk "06824".toList) "Fairfield" "Fairfield" "Connecticut"
          "CT" "09001" (mkSearchUrl c8Info) []).city = info.city ∧
      (Payload.mk (String.mk "06824".toList) "Fairfield" "Fairfield" "Connecticut"
          "CT" "09001" (mkSearchUrl c8Info) []).county = info.county_name ∧
      (Payload.mk (String.mk "06824".toList) "Fairfield" "Fairfield" "Connecticut"
          "CT" "09001" (mkSearchUrl c8Info) []).state = info.state_name ∧
      (Payload.mk (String.mk "06824".toList) "Fairfield" "Fairfield" "Connecticut"
          "CT" "09001" (mkSearchUrl c8Info) []).state_id = info.state_id ∧
      (Payload.mk (String.mk "06824".toList) "Fairfield" "Fairfield" "Connecticut"
          "CT" "09001" (mkSearchUrl c8Info) []).county_fips = info.county_fips ∧
      (Payload.mk (String.mk "06824".toList) "Fairfield" "Fairfield" "Connecticut"
          "CT" "09001" (mkSearchUrl c8Info) []).searchUrl = mkSearchUrl info ∧
      ((Payload.mk (String.mk "06824".toList) "Fairfield" "Fairfield" "Connecticut"
          "CT" "09001" (mkSearchUrl c8Info) []).transactions = [] ∨
        (∃ hd t, postParsed c8Env = some (.arr (hd :: t)) ∧
            dispatchType (jsonField hd "type") = .t1 ∧
            (Payload.mk (String.mk "06824".toList) "Fairfield" "Fairfield" "Connecticut"
              "CT" "09001" (mkSearchUrl c8Info) []).transactions = t) ∨
        (c8Env.secondCompletion = .content (some (.arr
            (Payload.mk (String.mk "06824".toList) "Fairfield" "Fairfield" "Connecticut"
              "CT" "09001" (mkSearchUrl c8Info) []).transactions)) ∧
          (Payload.mk (String.mk "06824".toList) "Fairfield" "Fairfield" "Connecticut"
              "CT" "09001" (mkSearchUrl c8Info) []).transactions ≠ [])) :=
  success_only_after_lookup c8Env 200
    (Payload.mk (String.mk "06824".toList) "Fairfield" "Fairfield" "Connecticut"
      "CT" "09001" (mkSearchUrl c8Info) []) (by rfl)

/-- C10: a success response's `searchUrl` is exactly
`https://gis.vgsi.com/<city lower-cased, whitespace removed><state_id
lower-cased>/search.aspx` computed from the looked-up record, and it depends
only on the address/zip-directory pair (not on search results, the selected
candidate, or the completion outputs). -/
theorem searchUrl_from_record :
    (∀ (env : Env) (s : Nat) (p : Payload), POST env = ⟨s, .success p⟩ →
        ∃ z info, extractZipcode env.address.toList = some z ∧
          lookupZip env.zipState (String.mk z) = .ok (some info) ∧
          p.searchUrl = "https://gis.vgsi.com/" ++
            String.mk (deleteWs (lowerL info.city.toList)) ++
            String.mk (lowerL info.state_id.toList) ++ "/search.aspx") ∧
    (∀ (env₁ env₂ : Env) (s₁ s₂ : Nat) (p₁ p₂ : Payload),
        env₁.address = env₂.address → env₁.zipState = env₂.zipState →
        POST env₁ = ⟨s₁, .success p₁⟩ → POST env₂ = ⟨s₂, .success p₂⟩ →
        p₁.searchUrl = p₂.searchUrl) := by
  constructor
  · intro env s p h
    obtain ⟨-, z, info, hz, hl, -, -, -, -, -, -, hurl, -⟩ := post_success_shape env s p h
    exact ⟨z, info, hz, hl, hurl⟩
  · intro env₁ env₂ s₁ s₂ p₁ p₂ haddr hstate h₁ h₂
    obtain ⟨-, z₁, info₁, hz₁, hl₁, -, -, -, -, -, -, hurl₁, -⟩ :=
      post_success_shape env₁ s₁ p₁ h₁
    obtain ⟨-, z₂, info₂, hz₂, hl₂, -, -, -, -, -, -, hurl₂, -⟩ :=
      post_success_shape env₂ s₂ p₂ h₂
    rw [haddr] at hz₁
    rw [hz₂] at hz₁
    have hz12 : z₂ = z₁ := Option.some.inj hz₁
    rw [hstate, ← hz12] at hl₁
    rw [hl₂] at hl₁
    have : info₂ = info₁ := Option.some.inj (Except.ok.inj hl₁)
    rw [hurl₁, hurl₂, this]

theorem searchUrl_from_record_witness :
    ∃ z info, extractZipcode c8Env.address.toList = some z ∧
      lookupZip c8Env.zipState (String.mk z) = .ok (some info) ∧
      (mkSearchUrl c8Info) = "https://gis.vgsi.com/" ++
        String.mk (deleteWs (lowerL info.city.toList)) ++
        String.mk (lowerL info.state_id.toList) ++ "/search.aspx" :=
  searchUrl_from_record.1 c8Env 200
    (Payload.mk (String.mk "06824".toList) "Fairfield" "Fairfield" "Connecticut"
      "CT" "09001" (mkSearchUrl c8Info) []) (by rfl)

/-! ### Link extraction (claim C9) -/

theorem find?_first {α : Type} (p : α → Bool) :
    ∀ (l₁ : List α) (a : α) (l₂ : List α), p a = true → (∀ q ∈ l₁, p q = false) →
      List.find? p (l₁ ++ a :: l₂) = some a := by
  intro l₁
  induction l₁ with
  | nil =>
    intro a l₂ hp _
    simp [List.find?_cons, hp]
  | cons q l ih =>
    intro a l₂ hp hall
    have hq : p q = false := hall q (List.mem_cons_self q l)
    simp only [List.cons_append, List.find?_cons, hq]
    exact ih a l₂ hp (fun x hx => hall x (List.mem_cons_of_mem q hx))

/-- The concrete markup of the spec's link-extraction scenario. -/
def lynnbrookMarkup : String :=
  "[8 LYNNBROOK ROAD](https://gis.vgsi.com/fairfieldct/Parcel.aspx?pid=2271)"

/-- C9: on the spec's example markup, `findParcelUrl` returns exactly the
example's parcel url; and in general, whenever the scanned markdown links
(with a `parcel.aspx` url) contain one whose lower-cased anchor text equals
an address variation, `findParcelUrl` returns the url of the first such
link. -/
theorem findParcelUrl_first_matching_link :
    (findParcelUrl "8 Lynnbrook Road" lynnbrookMarkup =
        some "https://gis.vgsi.com/fairfieldct/Parcel.aspx?pid=2271") ∧
      (∀ (addr content : String) (l₁ : List (List Char × List Char))
          (pr : List Char × List Char) (l₂ : List (List Char × List Char)),
        scanLinksWith parcelUrlOk content.toList = l₁ ++ pr :: l₂ →
        anchorMatches (normalizeA addr.toList) pr = true →
        (∀ q ∈ l₁, anchorMatches (normalizeA addr.toList) q = false) →
        findParcelUrl addr content = some (String.mk pr.2)) := by
  constructor
  · rfl
  · intro addr content l₁ pr l₂ hscan hpr hl₁
    unfold findParcelUrl
    rw [hscan, find?_first (anchorMatches (normalizeA addr.toList)) l₁ pr l₂ hpr hl₁]
    simp only [Option.elim_some]

theorem findParcelUrl_first_matching_link_witness :
    findParcelUrl "8 Lynnbrook Road" lynnbrookMarkup =
      some (String.mk "https://gis.vgsi.com/fairfieldct/Parcel.aspx?pid=2271".toList) :=
  findParcelUrl_first_matching_link.2 "8 Lynnbrook Road" lynnbrookMarkup []
    ("8 LYNNBROOK ROAD".toList,
      "https://gis.vgsi.com/fairfieldct/Parcel.aspx?pid=2271".toList) []
    (by rfl) (by rfl) (by intro q hq; exact absurd hq (List.not_mem_nil q))

/-! ### `extractZipcode` against the spec's pattern (claim C1) -/

theorem digitsTake_sound : ∀ (n : Nat) (l d r : List Char),
    digitsTake n l = some (d, r) →
      l = d ++ r ∧ d.length = n ∧ d.all Char.isDigit = true := by
  intro n
  induction n with
  | zero =>
    intro l d r h
    simp only [digitsTake, Option.some.injEq, Prod.mk.injEq] at h
    obtain ⟨hd, hr⟩ := h
    subst hd; subst hr
    exact ⟨rfl, rfl, rfl⟩
  | succ k ih =>
    intro l d r h
    cases l with
    | nil => simp [digitsTake] at h
    | cons c rest =>
      simp only [digitsTake] at h
      by_cases hc : c.isDigit = true
      · rw [if_pos hc] at h
        cases hdt : digitsTake k rest with
        | none => rw [hdt] at h; simp at h
        | some p =>
          rw [hdt] at h
          simp only [Option.map_some', Option.some.injEq, Prod.mk.injEq] at h
          obtain ⟨hd, hr⟩ := h
          obtain ⟨h1, h2, h3⟩ := ih rest p.1 p.2 (by rw [hdt])
          subst hd; subst hr
          refine ⟨by rw [h1]; rfl, by simp [h2], ?_⟩
          simp [List.all_cons, hc, h3]
      · rw [if_neg hc] at h; simp at h

theorem digitsTake_complete : ∀ (d r : List Char), d.all Char.isDigit = true →
    digitsTake d.length (d ++ r) = some (d, r) := by
  intro d
  induction d with
  | nil => intro r _; rfl
  | cons c cs ih =>
    intro r hall
    simp only [List.all_cons, Bool.and_eq_true] at hall
    simp only [List.length_cons, List.cons_append, digitsTake]
    rw [if_pos hall.1]
    show Option.map (fun p => (c :: p.1, p.2)) (digitsTake cs.length (cs ++ r)) =
      some (c :: cs, r)
    rw [ih r hall.2]
    rfl

theorem zipShape_short (d : List Char) (h5 : d.length = 5)
    (hd : d.all Char.isDigit = true) : zipShape d = true := by
  simp [zipShape, h5, hd]

theorem zipShape_long (d5 d4 : List Char) (h5 : d5.length = 5)
    (hd5 : d5.all Char.isDigit = true) (h4 : d4.length = 4)
    (hd4 : d4.all Char.isDigit = true) : zipShape (d5 ++ '-' :: d4) = true := by
  have hlen : (d5 ++ '-' :: d4).length = 10 := by simp [h5, h4]
  have htake : (d5 ++ '-' :: d4).take 5 = d5 := by
    rw [← h5]; exact List.take_left d5 _
  have hdrop5 : (d5 ++ '-' :: d4).drop 5 = '-' :: d4 := by
    rw [← h5]; exact List.drop_left d5 _
  have hdrop : (d5 ++ '-' :: d4).drop 6 = d4 := by
    have hassoc : d5 ++ '-' :: d4 = (d5 ++ ['-']) ++ d4 := by simp
    have hlen6 : (d5 ++ ['-']).length = 6 := by simp [h5]
    rw [hassoc, ← hlen6]
    exact List.drop_left _ _
  simp [zipShape, hlen, htake, hdrop5, hdrop, hd5, hd4]

theorem zipShape_cases (m : List Char) (h : zipShape m = true) :
    (m.length = 5 ∧ m.all Char.isDigit = true) ∨
    ∃ d5 d4, m = d5 ++ '-' :: d4 ∧ d5.length = 5 ∧ d5.all Char.isDigit = true ∧
      d4.length = 4 ∧ d4.all Char.isDigit = true := by
  simp only [zipShape, Bool.or_eq_true, Bool.and_eq_true, decide_eq_true_eq] at h
  rcases h with ⟨h1, h2⟩ | ⟨⟨⟨hlen, htake⟩, hget⟩, hdrop⟩
  · exact Or.inl ⟨h1, h2⟩
  · right
    have hm5 : m = m.take 5 ++ m.drop 5 := (List.take_append_drop 5 m).symm
    have hdropeq : m.drop 5 = '-' :: m.drop 6 := by
      cases hh : m.drop 5 with
      | nil => rw [hh] at hget; simp at hget
      | cons a t =>
        rw [hh] at hget
        simp only [List.head?_cons, Option.some.injEq] at hget
        have htl : t = m.drop 6 := by
          have h6 : (m.drop 5).tail = m.drop 6 := by
            rw [List.tail_drop]
          rw [hh] at h6
          exact h6
        rw [hget, htl]
    refine ⟨m.take 5, m.drop 6, ?_, ?_, htake, ?_, hdrop⟩
    · rw [← hdropeq]; exact hm5
    · simp [List.length_take, hlen]
    · simp [List.length_drop, hlen]

theorem isWordChar_of_digit (d : Char) (h : d.isDigit = true) :
    isWordChar d = true := by
  simp [isWordChar, h]

theorem zipShape_head (m : List Char) (h : zipShape m = true) :
    ∃ d mr, m = d :: mr ∧ d.isDigit = true := by
  rcases zipShape_cases m h with ⟨h5, hall⟩ | ⟨d5, d4, hm, h5, hd5, -, -⟩
  · cases m with
    | nil => simp at h5
    | cons d mr =>
      refine ⟨d, mr, rfl, ?_⟩
      simp only [List.all_cons, Bool.and_eq_true] at hall
      exact hall.1
  · cases d5 with
    | nil => simp at h5
    | cons d t =>
      refine ⟨d, t ++ '-' :: d4, by simpa using hm, ?_⟩
      simp only [List.all_cons, Bool.and_eq_true] at hd5
      exact hd5.1

theorem matchCore_sound (l m rest : List Char) (h : matchCore l = some (m, rest)) :
    l = m ++ rest ∧ zipShape m = true ∧ afterOk rest = true := by
  unfold matchCore at h
  cases h5 : digitsTake 5 l with
  | none => rw [h5, Option.elim_none] at h; exact Option.noConfusion h
  | some p5 =>
    rw [h5] at h
    simp only [Option.elim_some] at h
    obtain ⟨hl5, hlen5, hdig5⟩ := digitsTake_sound 5 l p5.1 p5.2 (by rw [h5])
    by_cases hdash : p5.2.head? = some '-'
    · rw [if_pos hdash] at h
      have hp52 : p5.2 = '-' :: p5.2.tail := by
        cases hh : p5.2 with
        | nil => rw [hh] at hdash; simp at hdash
        | cons a t =>
          rw [hh] at hdash
          simp only [List.head?_cons, Option.some.injEq] at hdash
          rw [hdash]
          rfl
      cases h4 : digitsTake 4 p5.2.tail with
      | none =>
        rw [h4, Option.elim_none] at h
        by_cases hab : afterOk p5.2 = true
        · rw [if_pos hab] at h
          simp only [Option.some.injEq, Prod.mk.injEq] at h
          obtain ⟨hm, hr⟩ := h
          subst hm; subst hr
          exact ⟨hl5, zipShape_short p5.1 hlen5 hdig5, hab⟩
        · rw [if_neg hab] at h; exact Option.noConfusion h
      | some p4 =>
        rw [h4] at h
        simp only [Option.elim_some] at h
        obtain ⟨ht4, hlen4, hdig4⟩ := digitsTake_sound 4 p5.2.tail p4.1 p4.2 (by rw [h4])
        by_cases hab2 : afterOk p4.2 = true
        · rw [if_pos hab2] at h
          simp only [Option.some.injEq, Prod.mk.injEq] at h
          obtain ⟨hm, hr⟩ := h
          subst hm; subst hr
          refine ⟨?_, zipShape_long p5.1 p4.1 hlen5 hdig5 hlen4 hdig4, hab2⟩
          rw [hl5, hp52, ht4]
          simp
        · rw [if_neg hab2] at h
          by_cases hab : afterOk p5.2 = true
          · rw [if_pos hab] at h
            simp only [Option.some.injEq, Prod.mk.injEq] at h
            obtain ⟨hm, hr⟩ := h
            subst hm; subst hr
            exact ⟨hl5, zipShape_short p5.1 hlen5 hdig5, hab⟩
          · rw [if_neg hab] at h; exact Option.noConfusion h
    · rw [if_neg hdash] at h
      by_cases hab : afterOk p5.2 = true
      · rw [if_pos hab] at h
        simp only [Option.some.injEq, Prod.mk.injEq] at h
        obtain ⟨hm, hr⟩ := h
        subst hm; subst hr
        exact ⟨hl5, zipShape_short p5.1 hlen5 hdig5, hab⟩
      · rw [if_neg hab] at h; exact Option.noConfusion h

theorem matchCore_complete (m post l : List Char) (hl : l = m ++ post)
    (hshape : zipShape m = true) (hafter : afterOk post = true) :
    (matchCore l).isSome = true := by
  rcases zipShape_cases m hshape with ⟨h5, hd⟩ | ⟨d5, d4, hm, h5, hd5, h4, hd4⟩
  · have hdt : digitsTake 5 l = some (m, post) := by
      rw [hl, ← h5]
      exact digitsTake_complete m post hd
    unfold matchCore
    rw [hdt]
    simp only [Option.elim_some]
    by_cases hdash : post.head? = some '-'
    · rw [if_pos hdash]
      cases h4' : digitsTake 4 post.tail with
      | none =>
        rw [Option.elim_none, if_pos hafter]
        rfl
      | some p4 =>
        simp only [Option.elim_some]
        by_cases ha2 : afterOk p4.2 = true
        · rw [if_pos ha2]; rfl
        · rw [if_neg ha2, if_pos hafter]; rfl
    · rw [if_neg hdash, if_pos hafter]
      rfl
  · have hshift : l = d5 ++ ('-' :: (d4 ++ post)) := by
      rw [hl, hm]; simp
    have hdt : digitsTake 5 l = some (d5, '-' :: (d4 ++ post)) := by
      rw [hshift, ← h5]
      exact digitsTake_complete d5 ('-' :: (d4 ++ post)) hd5
    unfold matchCore
    rw [hdt]
    simp only [Option.elim_some]
    rw [if_pos (by rfl : (('-' :: (d4 ++ post)).head? = some '-'))]
    have hdt4 : digitsTake 4 (('-' :: (d4 ++ post)).tail) = some (d4, post) := by
      show digitsTake 4 (d4 ++ post) = some (d4, post)
      rw [← h4]
      exact digitsTake_complete d4 post hd4
    rw [hdt4]
    simp only [Option.elim_some]
    rw [if_pos hafter]
    rfl

/-- The character just before the scanning position described by prefix
`pre`, when `p` was the character before the whole scanned list. -/
def prevO (p : Option Char) (pre : List Char) : Option Char :=
  match pre.getLast? with
  | some c => some c
  | none => p

theorem prevO_nil (p : Option Char) : prevO p [] = p := rfl

theorem getLast?_cons_ne_none (d : Char) (q : List Char) :
    (d :: q).getLast? ≠ none := by
  induction q generalizing d with
  | nil => simp [List.getLast?]
  | cons e r ih => rw [List.getLast?_cons_cons]; exact ih e

theorem prevO_cons (p : Option Char) (c : Char) (pre : List Char) :
    prevO p (c :: pre) = prevO (some c) pre := by
  cases pre with
  | nil => rfl
  | cons d q =>
    show prevO p (c :: d :: q) = prevO (some c) (d :: q)
    unfold prevO
    rw [List.getLast?_cons_cons]
    cases hg : (d :: q).getLast? with
    | some x => rfl
    | none => exact absurd hg (getLast?_cons_ne_none d q)

theorem prevO_none (pre : List Char) : prevO none pre = pre.getLast? := by
  unfold prevO
  cases pre.getLast? with
  | none => rfl
  | some c => rfl

theorem head_eq_of_split (c : Char) (rest m post : List Char) (d : Char) (mr : List Char)
    (hsplit : c :: rest = (d :: mr) ++ post) : c = d := by
  simp only [List.cons_append, List.cons.injEq] at hsplit
  exact hsplit.1

theorem extractGo_none_sound : ∀ (l : List Char) (p : Option Char),
    extractGo p l = none →
    ∀ pre m post, l = pre ++ m ++ post → zipShape m = true → afterOk post = true →
      wordB (prevO p pre) = true := by
  intro l
  induction l with
  | nil =>
    intro p _ pre m post hsplit hshape _
    have hm : m = [] := by
      have := hsplit.symm
      simp only [List.append_eq_nil] at this
      exact this.1.2
    rw [hm] at hshape
    exact absurd hshape (by decide)
  | cons c rest ih =>
    intro p h pre m post hsplit hshape hafter
    simp only [extractGo] at h
    by_cases hb : (wordB p != isWordChar c) = true
    · rw [if_pos hb] at h
      cases hmc : matchCore (c :: rest) with
      | some pr =>
        rw [hmc] at h
        simp only [Option.elim_some] at h
        exact Option.noConfusion h
      | none =>
        rw [hmc, Option.elim_none] at h
        cases pre with
        | nil =>
          simp only [List.nil_append] at hsplit
          have hc := matchCore_complete m post (c :: rest) hsplit hshape hafter
          rw [hmc] at hc
          simp at hc
        | cons c' pre' =>
          have hsp : c' = c ∧ rest = pre' ++ m ++ post := by
            simp only [List.cons_append, List.append_assoc, List.cons.injEq] at hsplit
            exact ⟨hsplit.1.symm, by rw [hsplit.2]; simp [List.append_assoc]⟩
          rw [hsp.1, prevO_cons]
          exact ih (some c) h pre' m post hsp.2 hshape hafter
    · rw [if_neg hb] at h
      cases pre with
      | nil =>
        simp only [List.nil_append, List.append_assoc] at hsplit
        obtain ⟨d, mr, hm, hd⟩ := zipShape_head m hshape
        have hcd : c = d := head_eq_of_split c rest m post d mr (by rw [hsplit, hm] <;> simp)
        have hw : isWordChar c = true := by
          rw [hcd]; exact isWordChar_of_digit d hd
        have hbp : wordB p = isWordChar c := by
          simpa using hb
        rw [prevO_nil, hbp, hw]
      | cons c' pre' =>
        have hsp : c' = c ∧ rest = pre' ++ m ++ post := by
          simp only [List.cons_append, List.append_assoc, List.cons.injEq] at hsplit
          exact ⟨hsplit.1.symm, by rw [hsplit.2]; simp [List.append_assoc]⟩
        rw [hsp.1, prevO_cons]
        exact ih (some c) h pre' m post hsp.2 hshape hafter

theorem extractGo_some_sound : ∀ (l : List Char) (p : Option Char) (m : List Char),
    extractGo p l = some m →
    ∃ pre post, l = pre ++ m ++ post ∧ zipShape m = true ∧ afterOk post = true ∧
      wordB (prevO p pre) = false ∧
      ∀ pre' m' post', l = pre' ++ m' ++ post' → zipShape m' = true →
        afterOk post' = true → wordB (prevO p pre') = false →
        pre.length ≤ pre'.length := by
  intro l
  induction l with
  | nil => intro p m h; exact Option.noConfusion h
  | cons c rest ih =>
    intro p m h
    simp only [extractGo] at h
    by_cases hb : (wordB p != isWordChar c) = true
    · rw [if_pos hb] at h
      cases hmc : matchCore (c :: rest) with
      | some pr =>
        rw [hmc] at h
        simp only [Option.elim_some, Option.some.injEq] at h
        obtain ⟨hl, hshape, hafter⟩ := matchCore_sound (c :: rest) pr.1 pr.2 (by rw [hmc])
        subst h
        refine ⟨[], pr.2, by simpa using hl, hshape, hafter, ?_, ?_⟩
        · obtain ⟨d, mr, hm, hd⟩ := zipShape_head pr.1 hshape
          have hcd : c = d := head_eq_of_split c rest pr.1 pr.2 d mr (by rw [hl, hm] <;> simp)
          have hw : isWordChar c = true := by
            rw [hcd]; exact isWordChar_of_digit d hd
          rw [prevO_nil]
          rw [hw] at hb
          cases hwp : wordB p with
          | false => rfl
          | true => rw [hwp] at hb; simp at hb
        · intro pre' m' post' _ _ _ _
          exact Nat.zero_le _
      | none =>
        rw [hmc, Option.elim_none] at h
        obtain ⟨pre', post', hsplit', hshape', hafter', hbound', hmin'⟩ :=
          ih (some c) m h
        refine ⟨c :: pre', post', by simp [hsplit', List.append_assoc], hshape', hafter',
          by rw [prevO_cons]; exact hbound', ?_⟩
        intro pre'' m'' post'' hs'' hshape'' hafter'' hbound''
        cases pre'' with
        | nil =>
          exfalso
          simp only [List.nil_append] at hs''
          have hc := matchCore_complete m'' post'' (c :: rest) hs'' hshape'' hafter''
          rw [hmc] at hc
          simp at hc
        | cons c'' q =>
          have hsp : c'' = c ∧ rest = q ++ m'' ++ post'' := by
            simp only [List.cons_append, List.append_assoc, List.cons.injEq] at hs''
            exact ⟨hs''.1.symm, by rw [hs''.2]; simp [List.append_assoc]⟩
          have hbq : wordB (prevO (some c) q) = false := by
            rw [hsp.1, prevO_cons] at hbound''
            exact hbound''
          have := hmin' q m'' post'' hsp.2 hshape'' hafter'' hbq
          simp only [List.length_cons]
          omega
    · rw [if_neg hb] at h
      obtain ⟨pre', post', hsplit', hshape', hafter', hbound', hmin'⟩ :=
        ih (some c) m h
      refine ⟨c :: pre', post', by simp [hsplit', List.append_assoc], hshape', hafter',
        by rw [prevO_cons]; exact hbound', ?_⟩
      intro pre'' m'' post'' hs'' hshape'' hafter'' hbound''
      cases pre'' with
      | nil =>
        exfalso
        simp only [List.nil_append] at hs''
        obtain ⟨d, mr, hm, hd⟩ := zipShape_head m'' hshape''
        have hcd : c = d := head_eq_of_split c rest m'' post'' d mr (by rw [hs'', hm] <;> simp)
        have hw : isWordChar c = true := by
          rw [hcd]; exact isWordChar_of_digit d hd
        have hbp : wordB p = isWordChar c := by simpa using hb
        rw [prevO_nil] at hbound''
        rw [hbound'', hw] at hbp
        exact Bool.noConfusion hbp
      | cons c'' q =>
        have hsp : c'' = c ∧ rest = q ++ m'' ++ post'' := by
          simp only [List.cons_append, List.append_assoc, List.cons.injEq] at hs''
          exact ⟨hs''.1.symm, by rw [hs''.2]; simp [List.append_assoc]⟩
        have hbq : wordB (prevO (some c) q) = false := by
          rw [hsp.1, prevO_cons] at hbound''
          exact hbound''
        have := hmin' q m'' post'' hsp.2 hshape'' hafter'' hbq
        simp only [List.length_cons]
        omega

/-- C1 counterexample: the address `"123456"` contains the substring
`"12345"`, which matches the spec's pattern `\d{5}(-\d{4})?`, yet
`extractZipcode` returns `null`: its regex `\b\d{5}(?:-\d{4})?\b` requires
word boundaries, and the trailing `6` is a word character. -/
theorem extractZipcode_needs_boundaries :
    "123456".toList = "12345".toList ++ ['6'] ∧
      zipShape "12345".toList = true ∧
      extractZipcode "123456".toList = none :=
  ⟨rfl, rfl, rfl⟩

/-- C1 (amended): `extractZipcode` returns a *word-boundary-delimited* match
of `\d{5}(-\d{4})?`, at the leftmost position having one (the boundary
before `m` means the character ending `pre` is a non-word character, and the
boundary after means `post` starts with a non-word character, captured by
`afterOk`); and it returns `null` exactly when the address contains no
boundary-delimited occurrence of the pattern. -/
theorem extractZipcode_first_bounded_match (s : List Char) :
    (∀ m, extractZipcode s = some m →
      ∃ pre post, s = pre ++ m ++ post ∧ zipShape m = true ∧ afterOk post = true ∧
        wordB pre.getLast? = false ∧
        ∀ pre' m' post', s = pre' ++ m' ++ post' → zipShape m' = true →
          afterOk post' = true → wordB pre'.getLast? = false →
          pre.length ≤ pre'.length) ∧
    (extractZipcode s = none →
      ∀ pre m post, s = pre ++ m ++ post → zipShape m = true → afterOk post = true →
        wordB pre.getLast? = true) := by
  constructor
  · intro m h
    obtain ⟨pre, post, hsplit, hshape, hafter, hbound, hmin⟩ :=
      extractGo_some_sound s none m h
    rw [prevO_none] at hbound
    refine ⟨pre, post, hsplit, hshape, hafter, hbound, ?_⟩
    intro pre' m' post' hs' hshape' hafter' hbound'
    exact hmin pre' m' post' hs' hshape' hafter' (by rw [prevO_none]; exact hbound')
  · intro h pre m post hsplit hshape hafter
    have := extractGo_none_sound s none h pre m post hsplit hshape hafter
    rw [prevO_none] at this
    exact this

theorem extractZipcode_first_bounded_match_witness :
    ∃ pre post, "a 12345 b".toList = pre ++ "12345".toList ++ post ∧
      zipShape "12345".toList = true ∧ afterOk post = true ∧
      wordB pre.getLast? = false ∧
      ∀ pre' m' post', "a 12345 b".toList = pre' ++ m' ++ post' →
        zipShape m' = true → afterOk post' = true → wordB pre'.getLast? = false →
        pre.length ≤ pre'.length :=
  (extractZipcode_first_bounded_match "a 12345 b".toList).1 "12345".toList (by rfl)

end RealEstate
